import Mathlib

/-!
Verification of the bnn CLI's configuration resolver/mutator and session store.

The definitions below are shallow embeddings of the TypeScript source:
  * `Value`, `deepMergeFields`, `loadEnvConfig`, `loadConfigPure`,
    `setNestedParts`, `unsetNestedParts`, `setConfigValuesPure`,
    `unsetConfigValuesPure` embed `src/config/config.ts`
    (`deepMerge`, `loadEnvConfig`, `loadConfig`, `setNestedValue`,
    `unsetNestedValue`, `setConfigValues`, `unsetConfigValues`);
  * `isSecretKey`, `readStdinText`, `parseCliValue`, `runSet` embed
    `src/cli/config.ts` (`isSecretKey`, `readStdinText`, `parseCliValue`,
    `createSetCommand`'s action);
  * `Session`, `Store`, `listSessions`, `pruneStore`, `createSession`,
    `addEntry`, `getLastImageData` embed `src/session/storage.ts`
    (`SessionStorage`) and `src/session/manager.ts` (`SessionManager`).

Modelling conventions: the file system is a finite map from names to
contents (an association list in write order); JavaScript objects are
association lists in property-insertion order (no duplicate keys arise in
the source); ISO timestamp strings, which the source only compares through
`new Date(x).getTime()`, are modelled by their numeric time value;
JavaScript object properties explicitly set to `undefined` are modelled as
absent (both are invisible to every read path in the source).
-/

namespace Bnn

/-- A JSON/TOML-like runtime value as manipulated by the config code.
`num` carries the literal's text: the source stores JavaScript numbers, but
none of the verified operations inspect numeric values. -/
inductive Value : Type where
  | str (s : String)
  | num (s : String)
  | bool (b : Bool)
  | null
  | arr (xs : List Value)
  | obj (fields : List (String × Value))

/-- Property list of a JavaScript object, in insertion order. -/
abbrev Fields := List (String × Value)

/-- Reading a property of a JavaScript object (first binding wins; the
source never creates duplicate keys). -/
def lookupKey {α : Type} : List (String × α) → String → Option α
  | [], _ => none
  | (k', v) :: rest, k => if k' = k then some v else lookupKey rest k

/-- JavaScript property assignment `o[k] = v`: overwrites in place when the
key exists, otherwise appends at the end. -/
def setKey {α : Type} : List (String × α) → String → α → List (String × α)
  | [], k, v => [(k, v)]
  | (k', v') :: rest, k, v =>
      if k' = k then (k, v) :: rest else (k', v') :: setKey rest k v

/-- JavaScript `delete o[k]`: removes the binding of `k`.  (A JavaScript
object holds at most one binding per key; on the duplicate-free lists the
program produces this equals removing the unique binding.) -/
def removeKey {α : Type} : List (String × α) → String → List (String × α)
  | [], _ => []
  | (k', v) :: rest, k =>
      if k' = k then removeKey rest k else (k', v) :: removeKey rest k

/-- Whether a value is a plain object in the sense of the source's
`typeof x === "object" && x !== null && !Array.isArray(x)` test. -/
def Value.isObj : Value → Bool
  | .obj _ => true
  | _ => false

/-- Embeds `deepMerge` from `src/config/config.ts` (one source; the
variadic form folds this over the source list).  For each source key: if
both the current result value and the source value are plain objects, merge
recursively, otherwise the source value replaces the result value. -/
def deepMergeFields : Fields → Fields → Fields
  | target, [] => target
  | target, (k, Value.obj sf) :: rest =>
      match lookupKey target k with
      | some (Value.obj tf) =>
          deepMergeFields (setKey target k (Value.obj (deepMergeFields tf sf))) rest
      | _ => deepMergeFields (setKey target k (Value.obj sf)) rest
  | target, (k, v) :: rest => deepMergeFields (setKey target k v) rest
termination_by _ s => sizeOf s
decreasing_by
  all_goals simp_wf
  all_goals omega

/-- Embeds the read path of `getConfigValue` / dotted-key lookup: walk the
parts; indexing a non-object (or a missing key) yields `undefined`. -/
def getValuePath : Value → List String → Option Value
  | v, [] => some v
  | .obj fs, part :: rest =>
      match lookupKey fs part with
      | some v => getValuePath v rest
      | none => none
  | _, _ :: _ => none

/-- The environment variables read by `loadEnvConfig`.  A variable that the
process environment does not define is `none`. -/
structure Env : Type where
  apiKey : Option String
  endpoint : Option String
  model : Option String
  thinking : Option String
  outputDir : Option String
  resolution : Option String
  aspect : Option String

/-- JavaScript truthiness of `process.env[X]` (a missing variable is
`undefined`, and the empty string is falsy). -/
def truthy : Option String → Bool
  | none => false
  | some s => s ≠ ""

/-- The members of `SupportedModelSchema` in `src/config/schema.ts`. -/
def supportedModels : List String :=
  ["gemini-3.1-flash-image-preview", "gemini-3-pro-image-preview"]

/-- The `config.api` object built by `loadEnvConfig` (empty list when the
`config.api = {}` branch is not taken). -/
def apiPart (e : Env) : Fields :=
  if truthy e.apiKey || truthy e.endpoint then
    [("api", Value.obj
      ((if truthy e.apiKey then [("key", Value.str (e.apiKey.getD ""))] else [])
        ++ (if truthy e.endpoint then
              [("endpoint", Value.str (e.endpoint.getD ""))] else [])))]
  else []

/-- The `modelConfig` object of `loadEnvConfig`: the default model only
when it passes `SupportedModelSchema`, the thinking level only when it is
one of the three literals. -/
def modelFieldsOf (e : Env) : Fields :=
  (if truthy e.model && supportedModels.contains (e.model.getD "") then
    [("default", Value.str (e.model.getD ""))] else [])
  ++ (if truthy e.thinking
        && ["minimal", "high", "dynamic"].contains (e.thinking.getD "") then
        [("thinking", Value.str (e.thinking.getD ""))] else [])

/-- The `config.model` entry of `loadEnvConfig`, present only when
`modelConfig` gained at least one key. -/
def modelPart (e : Env) : Fields :=
  if (modelFieldsOf e).isEmpty then [] else [("model", Value.obj (modelFieldsOf e))]

/-- The fields of the `config.output` object of `loadEnvConfig`: the
resolution only when it is one of the four literals; the aspect ratio
verbatim (`as any`). -/
def outputFieldsOf (e : Env) : Fields :=
  (if truthy e.outputDir then
    [("directory", Value.str (e.outputDir.getD ""))] else [])
  ++ (if truthy e.resolution
        && ["512px", "1k", "2k", "4k"].contains (e.resolution.getD "") then
        [("resolution", Value.str (e.resolution.getD ""))] else [])
  ++ (if truthy e.aspect then
        [("aspect_ratio", Value.str (e.aspect.getD ""))] else [])

/-- The `config.output` entry of `loadEnvConfig`. -/
def outputPart (e : Env) : Fields :=
  if truthy e.outputDir || truthy e.resolution || truthy e.aspect then
    [("output", Value.obj (outputFieldsOf e))]
  else []

/-- Embeds `loadEnvConfig` from `src/config/config.ts`: builds a partial
config object from the environment.  `model`, `thinking` and `resolution`
values are checked against their enumerations; `BNN_ASPECT_RATIO` is copied
with an `as any` cast and no check. -/
def loadEnvConfig (e : Env) : Fields :=
  apiPart e ++ modelPart e ++ outputPart e

/-- The ordered source list that `loadConfig` builds: built-in defaults,
then the global document, the project document and the explicit override
document when present, then the environment config (highest precedence). -/
def configSources (defaults : Fields) (globalDoc projectDoc customDoc : Option Fields)
    (env : Fields) : List Fields :=
  [defaults] ++ globalDoc.toList ++ projectDoc.toList ++ customDoc.toList ++ [env]

/-- Embeds the merge pipeline of `loadConfig`:
`deepMerge({} as Config, ...configs)` folds `deepMerge` over the sources,
starting from the empty object. -/
def loadConfigPure (defaults : Fields) (globalDoc projectDoc customDoc : Option Fields)
    (env : Fields) : Fields :=
  (configSources defaults globalDoc projectDoc customDoc env).foldl deepMergeFields []

/-- The object `setNestedValue` walks into at an intermediate part: the
existing value when it is a plain object, otherwise a fresh `{}` (the
source overwrites non-object intermediates). -/
def subAt (target : Fields) (part : String) : Fields :=
  match lookupKey target part with
  | some (.obj sub) => sub
  | _ => []

/-- Embeds `setNestedValue` from `src/config/config.ts`, on an
already-split dotted key: walk the parts, replacing any non-object
intermediate with a fresh empty object, and assign the leaf. -/
def setNestedParts : Fields → List String → Value → Fields
  | target, [], _ => target
  | target, [leaf], v => setKey target leaf v
  | target, part :: rest, v =>
      setKey target part (Value.obj (setNestedParts (subAt target part) rest v))

/-- Splits a dotted key on `"."` exactly as JavaScript `key.split(".")`
does (written with structural recursion so that it evaluates by `rfl`). -/
def splitDotAux : List Char → List Char → List String
  | acc, [] => [String.mk acc.reverse]
  | acc, c :: rest =>
      if c = '.' then String.mk acc.reverse :: splitDotAux [] rest
      else splitDotAux (c :: acc) rest

/-- JavaScript `key.split(".")`. -/
def splitDot (s : String) : List String := splitDotAux [] s.data

/-- `setNestedValue` on a dotted key string. -/
def setNestedValue (target : Fields) (key : String) (v : Value) : Fields :=
  setNestedParts target (splitDot key) v

/-- Embeds `setConfigValues`: apply each update in order to the layer
document (the document read from disk, or `{}` when the file is absent). -/
def setConfigValuesPure (doc : Fields) (updates : Fields) : Fields :=
  updates.foldl (fun d kv => setNestedValue d kv.1 kv.2) doc

/-- Embeds `unsetNestedValue` on an already-split dotted key: walk the
parts; a missing or non-object intermediate, or a missing leaf, is a no-op
that reports `false`; otherwise the leaf is deleted and `true` reported. -/
def unsetNestedParts : Fields → List String → Fields × Bool
  | target, [] => (target, false)
  | target, [leaf] =>
      if (lookupKey target leaf).isSome then (removeKey target leaf, true)
      else (target, false)
  | target, part :: rest =>
      match lookupKey target part with
      | some (.obj sub) =>
          let r := unsetNestedParts sub rest
          (setKey target part (Value.obj r.1), r.2)
      | _ => (target, false)

/-- One iteration of the `unsetConfigValues` loop: unset the key and count
the removal when it happened. -/
def unsetStep (acc : Fields × Nat) (k : String) : Fields × Nat :=
  let r := unsetNestedParts acc.1 (splitDot k)
  (r.1, if r.2 then acc.2 + 1 else acc.2)

/-- Embeds `unsetConfigValues` on the layer document: apply each key in
order, counting the removals that actually happened.  (When the layer file
does not exist the source returns 0 without writing; that corresponds to
the empty document here.) -/
def unsetConfigValuesPure (doc : Fields) (keys : List String) : Fields × Nat :=
  keys.foldl unsetStep (doc, 0)

/-- Whether the dotted path exists in the document down to the leaf: every
intermediate is an object and the leaf key is present.  This is the exact
success condition of `unsetNestedValue`. -/
def existsPath : Fields → List String → Bool
  | _, [] => false
  | target, [leaf] => (lookupKey target leaf).isSome
  | target, part :: rest =>
      match lookupKey target part with
      | some (.obj sub) => existsPath sub rest
      | _ => false

/-- ASCII lowercasing, the effect of the `i` flag of the secret-key
regular expression on its letter-only alternatives. -/
def lowerAscii (s : String) : String := String.mk (s.data.map Char.toLower)

/-- Embeds `isSecretKey` from `src/cli/config.ts`: the regular expression
`/(^|\.)(key|token|secret|password)$/i` matches exactly when the last
dot-separated segment of the key is one of the four words, case-insensitively. -/
def isSecretKey (key : String) : Bool :=
  match (splitDot key).getLast? with
  | some seg => ["key", "token", "secret", "password"].contains (lowerAscii seg)
  | none => false

/-- The whitespace class of the trailing-trim `replace(/\s+$/, "")` (the
JavaScript class also contains exotic Unicode spaces, which no verified
statement depends on). -/
def jsWhitespace (c : Char) : Bool :=
  c = ' ' || c = '\t' || c = '\n' || c = '\r' || c = '\x0b' || c = '\x0c'

/-- Embeds `readStdinText` from `src/cli/config.ts`: the piped input with
trailing whitespace (and only trailing whitespace) removed. -/
def readStdinText (stdin : String) : String :=
  String.mk ((stdin.data.reverse.dropWhile jsWhitespace).reverse)

/-- The test `/^-?\d+(\.\d+)?$/.test(value)` of `parseCliValue`. -/
def numericLit (value : String) : Bool :=
  let cs := match value.data with
    | '-' :: rest => rest
    | cs => cs
  match splitDotAux [] cs with
  | [d] => !d.data.isEmpty && d.data.all Char.isDigit
  | [d, f] => !d.data.isEmpty && d.data.all Char.isDigit
      && !f.data.isEmpty && f.data.all Char.isDigit
  | _ => false

/-- Embeds `parseCliValue` from `src/cli/config.ts`.  A numeric literal is
kept as its text: the source converts it to a JavaScript float, which no
verified operation inspects (the `Number.isFinite` guard only fails for
literals beyond the float range, where the value is stored as a string;
none of the claims exercise that corner). -/
def parseCliValue (value : String) : Value :=
  if value = "true" then Value.bool true
  else if value = "false" then Value.bool false
  else if value = "null" then Value.null
  else if numericLit value then Value.num value
  else Value.str value

/-- The errors thrown by the `config set` action before anything is
written.  `secretViaArgv` is the refusal to accept a secret through the
argument list; `noStdin` is "No stdin input received for '-' value";
`invalidEntry` rejects a malformed `key=value` entry. -/
inductive SetErr : Type where
  | secretViaArgv (key : String)
  | noStdin
  | invalidEntry (entry : String)
deriving DecidableEq

/-- JavaScript `entry.indexOf("=")` splitting: `none` when no `=` occurs,
otherwise the text before the first `=` and the text after it. -/
def splitEq : List Char → Option (List Char × List Char)
  | [] => none
  | c :: rest =>
      if c = '=' then some ([], rest)
      else
        match splitEq rest with
        | some r => some (c :: r.1, r.2)
        | none => none

/-- JavaScript `s.includes("=")`. -/
def hasEqChar (s : String) : Bool := s.data.contains '='

/-- The legacy branch of the `config set` action (`bnn cfg set key value`):
`-` reads the trimmed piped input (an empty result is an error); otherwise
a secret key is refused and a plain key's value is parsed as a CLI scalar. -/
def processLegacy (key value stdin : String) : Except SetErr Fields :=
  if value = "-" then
    let sv := readStdinText stdin
    if sv = "" then .error .noStdin else .ok [(key, Value.str sv)]
  else if isSecretKey key then .error (.secretViaArgv key)
  else .ok [(key, parseCliValue value)]

/-- One `key=value` entry of the `config set` action: the entry must have
`=` at a positive index; a secret key demands the `-` sentinel and then the
trimmed piped input; a plain key accepts `-` (piped input) or a literal. -/
def processEntry (entry stdin : String) : Except SetErr (String × Value) :=
  match splitEq entry.data with
  | none => .error (.invalidEntry entry)
  | some ([], _) => .error (.invalidEntry entry)
  | some (kcs, vcs) =>
      let key := String.mk kcs
      let value := String.mk vcs
      if isSecretKey key then
        if value ≠ "-" then .error (.secretViaArgv key)
        else
          let sv := readStdinText stdin
          if sv = "" then .error .noStdin else .ok (key, Value.str sv)
      else if value = "-" then
        let sv := readStdinText stdin
        if sv = "" then .error .noStdin else .ok (key, Value.str sv)
      else .ok (key, parseCliValue value)

/-- The `key=value` loop of the `config set` action, accumulating the
`updates` object (later entries for the same key overwrite in place). -/
def processMulti (entries : List String) (stdin : String) (acc : Fields) :
    Except SetErr Fields :=
  match entries with
  | [] => .ok acc
  | entry :: rest =>
      match processEntry entry stdin with
      | .error e => .error e
      | .ok kv => processMulti rest stdin (setKey acc kv.1 kv.2)

/-- Embeds the update-collection phase of `createSetCommand`'s action: the
legacy two-argument form applies when exactly two entries are given and
neither contains `=`; otherwise every entry is parsed as `key=value`. -/
def runSetEntries (entries : List String) (stdin : String) : Except SetErr Fields :=
  match entries with
  | [k, v] =>
      if !hasEqChar k && !hasEqChar v then processLegacy k v stdin
      else processMulti entries stdin []
  | _ => processMulti entries stdin []

/-- Embeds the whole `config set` action against one layer document: any
thrown error leaves the document untouched (the write happens only after
every entry has been accepted); on success the updates are applied and the
updated key list reported. -/
def runSet (entries : List String) (stdin : String) (doc : Fields) :
    Fields × Except SetErr (List String) :=
  match runSetEntries entries stdin with
  | .error e => (doc, .error e)
  | .ok updates => (setConfigValuesPure doc updates, .ok (updates.map Prod.fst))

/-- One history entry of a session (`SessionEntry` in
`src/session/types.ts`); timestamps are modelled by their numeric time
value. -/
structure SessionEntry : Type where
  prompt : String
  output : String
  timestamp : Nat
  image_data : Option String
deriving DecidableEq

/-- A session record (`Session` in `src/session/types.ts`). -/
structure Session : Type where
  id : String
  created_at : Nat
  updated_at : Nat
  model : String
  input_image : Option String
  history : List SessionEntry
deriving DecidableEq

/-- The session directory: one JSON file per session id, modelled as an
association list from file id to parsed record, in creation order. -/
abbrev Store := List (String × Session)

/-- `SessionStorage.save`: writes `<id>.json` (overwriting any previous
file of that name). -/
def Store.save (st : Store) (s : Session) : Store := setKey st s.id s

/-- `SessionStorage.get`: reads `<id>.json`, absent when the file does not
exist (a corrupt file, also reported as absent by the source, is not
representable in this model). -/
def Store.get (st : Store) (id : String) : Option Session := lookupKey st id

/-- `SessionStorage.delete`: removes the file when present and reports
whether it did. -/
def Store.del (st : Store) (id : String) : Store × Bool :=
  if (lookupKey st id).isSome then (removeKey st id, true) else (st, false)

/-- The listing projection (`SessionSummary` in `src/session/types.ts`). -/
structure SessionSummary : Type where
  id : String
  created_at : Nat
  updated_at : Nat
  model : String
  history_count : Nat
  last_prompt : Option String
deriving DecidableEq

/-- The summary built by `SessionStorage.list` for one record:
`history.length` and `history[history.length - 1]?.prompt`. -/
def summarize (s : Session) : SessionSummary :=
  { id := s.id
    created_at := s.created_at
    updated_at := s.updated_at
    model := s.model
    history_count := s.history.length
    last_prompt := s.history.getLast?.map SessionEntry.prompt }

/-- The sort order of `SessionStorage.list`: the comparator
`new Date(b.updated_at).getTime() - new Date(a.updated_at).getTime()`
places more recently updated sessions first. -/
def moreRecent (a b : SessionSummary) : Prop := b.updated_at ≤ a.updated_at

instance : DecidableRel moreRecent := fun a b =>
  inferInstanceAs (Decidable (b.updated_at ≤ a.updated_at))

instance : IsTotal SessionSummary moreRecent :=
  ⟨fun a b => Nat.le_total b.updated_at a.updated_at⟩

instance : IsTrans SessionSummary moreRecent :=
  ⟨fun _ _ _ h h' => Nat.le_trans h' h⟩

/-- Embeds `SessionStorage.list`: summarize every record, then sort by
`updated_at` descending (JavaScript's stable sort, modelled by insertion
sort, which is also stable). -/
def listSessions (st : Store) : List SessionSummary :=
  List.insertionSort moreRecent (st.map fun p => summarize p.2)

/-- Embeds `SessionStorage.prune`: list by recency, and when more than
`maxHistory` sessions exist, delete every session beyond the
`maxHistory`-th, counting successful deletions. -/
def pruneStore (st : Store) (maxHistory : Nat) : Store × Nat :=
  let sessions := listSessions st
  if sessions.length > maxHistory then
    ((listSessions st).drop maxHistory).foldl
      (fun acc summ =>
        let r := Store.del acc.1 summ.id
        (r.1, if r.2 then acc.2 + 1 else acc.2))
      (st, 0)
  else (st, 0)

/-- Embeds `SessionManager.create`: build the fresh record (empty history,
both timestamps equal to now), save it, then prune to `maxHistory`. -/
def createSession (st : Store) (id : String) (now : Nat) (model : String)
    (inputImage : Option String) (maxHistory : Nat) : Store × Session :=
  let session : Session :=
    { id := id, created_at := now, updated_at := now, model := model
      input_image := inputImage, history := [] }
  ((pruneStore (Store.save st session) maxHistory).1, session)

/-- Embeds `SessionManager.addEntry`: absent session is reported as
`none`; otherwise the entry is pushed, `updated_at` set to the entry's
timestamp, and the record saved. -/
def addEntry (st : Store) (sessionId prompt output : String) (now : Nat)
    (imageData : Option String) : Store × Option Session :=
  match Store.get st sessionId with
  | none => (st, none)
  | some session =>
      let entry : SessionEntry :=
        { prompt := prompt, output := output, timestamp := now
          image_data := imageData }
      let s2 := { session with history := session.history ++ [entry], updated_at := now }
      (Store.save st s2, some s2)

/-- JavaScript `a || b` on optional strings (`undefined` and `""` are
falsy). -/
def jsOrStr : Option String → Option String → Option String
  | none, b => b
  | some s, b => if s = "" then b else some s

/-- Embeds `SessionManager.getLastImageData`: `null` when the session is
absent or its history is empty; otherwise
`lastEntry.image_data || session.input_image || null`. -/
def getLastImageData (st : Store) (sessionId : String) : Option String :=
  match Store.get st sessionId with
  | none => none
  | some session =>
      match session.history.getLast? with
      | none => none
      | some lastEntry => jsOrStr lastEntry.image_data (jsOrStr session.input_image none)

/-- Key lists without duplicates, the invariant JavaScript objects satisfy. -/
def nodupKeys {α : Type} : List (String × α) → Bool
  | [] => true
  | (k, _) :: rest => (lookupKey rest k).isNone && nodupKeys rest

/-- The value `deepMerge` stores at one key, given the current result value
at that key. -/
def mergeOne : Option Value → Value → Value
  | some (.obj tf), .obj sf => Value.obj (deepMergeFields tf sf)
  | _, v => v

theorem lookupKey_setKey_self {α : Type} (l : List (String × α)) (k : String) (v : α) :
    lookupKey (setKey l k v) k = some v := by
  induction l with
  | nil => simp [setKey, lookupKey]
  | cons p rest ih =>
      obtain ⟨k', v'⟩ := p
      by_cases h : k' = k
      · simp [setKey, lookupKey, h]
      · simp [setKey, lookupKey, h, ih]

theorem lookupKey_setKey_ne {α : Type} (l : List (String × α)) {k k2 : String}
    (h : k ≠ k2) (v : α) : lookupKey (setKey l k v) k2 = lookupKey l k2 := by
  induction l with
  | nil => simp [setKey, lookupKey, h]
  | cons p rest ih =>
      obtain ⟨k', v'⟩ := p
      by_cases h' : k' = k
      · subst h'
        simp [setKey, lookupKey, h]
      · simp [setKey, lookupKey, h', ih]

theorem deepMergeFields_nil (t : Fields) : deepMergeFields t [] = t := by
  simp [deepMergeFields]

theorem deepMergeFields_cons (t : Fields) (k0 : String) (v0 : Value) (rest : Fields) :
    deepMergeFields t ((k0, v0) :: rest)
      = deepMergeFields (setKey t k0 (mergeOne (lookupKey t k0) v0)) rest := by
  cases v0 with
  | obj sf =>
      rcases h : lookupKey t k0 with _ | tv
      · simp [deepMergeFields, mergeOne, h]
      · cases tv <;> simp [deepMergeFields, mergeOne, h]
  | str s => simp [deepMergeFields, mergeOne]
  | num s => simp [deepMergeFields, mergeOne]
  | bool b => simp [deepMergeFields, mergeOne]
  | null => simp [deepMergeFields, mergeOne]
  | arr xs => simp [deepMergeFields, mergeOne]

/-- Per-key description of `deepMerge` with one source object: keys absent
from the source keep the accumulated value, keys present in the source get
`mergeOne` of the two values. -/
theorem lookup_deepMergeFields (s : Fields) (hs : nodupKeys s = true) (t : Fields)
    (k : String) :
    lookupKey (deepMergeFields t s) k =
      match lookupKey s k with
      | none => lookupKey t k
      | some sv => some (mergeOne (lookupKey t k) sv) := by
  induction s generalizing t with
  | nil => simp [deepMergeFields_nil, lookupKey]
  | cons p rest ih =>
      obtain ⟨k0, v0⟩ := p
      have hs' : (lookupKey rest k0).isNone = true ∧ nodupKeys rest = true := by
        simpa [nodupKeys, Bool.and_eq_true] using hs
      rw [deepMergeFields_cons, ih hs'.2]
      by_cases hk : k0 = k
      · subst hk
        have hnone : lookupKey rest k0 = none := by
          cases h : lookupKey rest k0 with
          | none => rfl
          | some _ => rw [h] at hs'; simp at hs'
        simp [lookupKey, hnone, lookupKey_setKey_self]
      · simp [lookupKey, hk, lookupKey_setKey_ne _ hk]

/-- JavaScript-style first-defined choice on optional values. -/
def orElseO (a b : Option Value) : Option Value :=
  match a with
  | some v => some v
  | none => b

/-- No value of the object is itself a plain object (the leaf level of the
configuration schema). -/
def flatObj (fs : Fields) : Bool := fs.all fun q => !q.2.isObj

/-- The shape every actual `loadConfig` source has (schema-validated
documents, `DEFAULT_CONFIG` and `loadEnvConfig` results): duplicate-free
keys, every top-level value an object of non-object leaves with
duplicate-free keys. -/
def wfTwo (fs : Fields) : Bool :=
  nodupKeys fs && fs.all fun p =>
    match p.2 with
    | .obj sub => nodupKeys sub && flatObj sub
    | _ => false

theorem lookupKey_mem {α : Type} {l : List (String × α)} {k : String} {v : α}
    (h : lookupKey l k = some v) : (k, v) ∈ l := by
  induction l with
  | nil => simp [lookupKey] at h
  | cons p rest ih =>
      obtain ⟨k', v'⟩ := p
      by_cases hk : k' = k
      · subst hk
        simp [lookupKey] at h
        simp [h]
      · simp [lookupKey, hk] at h
        exact List.mem_cons_of_mem _ (ih h)

theorem wfTwo_lookup {s : Fields} (hs : wfTwo s = true) {k : String} {v : Value}
    (h : lookupKey s k = some v) :
    ∃ sf, v = Value.obj sf ∧ nodupKeys sf = true ∧ flatObj sf = true := by
  have hmem := lookupKey_mem h
  rw [wfTwo, Bool.and_eq_true, List.all_eq_true] at hs
  have := hs.2 _ hmem
  cases v with
  | obj sf =>
      rw [Bool.and_eq_true] at this
      exact ⟨sf, rfl, this⟩
  | str s => simp at this
  | num s => simp at this
  | bool b => simp at this
  | null => simp at this
  | arr xs => simp at this

theorem wfTwo_nodup {s : Fields} (hs : wfTwo s = true) : nodupKeys s = true := by
  rw [wfTwo, Bool.and_eq_true] at hs
  exact hs.1

theorem lookup_deepMergeFields_none {s : Fields} (hs : nodupKeys s = true) (t : Fields)
    {k : String} (h : lookupKey s k = none) :
    lookupKey (deepMergeFields t s) k = lookupKey t k := by
  rw [lookup_deepMergeFields s hs t k, h]

theorem lookup_deepMergeFields_some {s : Fields} (hs : nodupKeys s = true) (t : Fields)
    {k : String} {sv : Value} (h : lookupKey s k = some sv) :
    lookupKey (deepMergeFields t s) k = some (mergeOne (lookupKey t k) sv) := by
  rw [lookup_deepMergeFields s hs t k, h]

theorem flatObj_lookup {sf : Fields} (hf : flatObj sf = true) {k : String} {v : Value}
    (h : lookupKey sf k = some v) : v.isObj = false := by
  have hmem := lookupKey_mem h
  rw [flatObj, List.all_eq_true] at hf
  have := hf _ hmem
  simpa using this

theorem getValuePath_obj_single (fs : Fields) (k : String) :
    getValuePath (.obj fs) [k] = lookupKey fs k := by
  cases h : lookupKey fs k <;> simp [getValuePath, h]

/-- Fields of depth-two well-formed sources resolve through one merge step
by preferring the incoming source. -/
theorem getValuePath_obj_pair (fs : Fields) (k1 k2 : String) :
    getValuePath (.obj fs) [k1, k2]
      = match lookupKey fs k1 with
        | some (.obj sub) => lookupKey sub k2
        | _ => none := by
  cases h : lookupKey fs k1 with
  | none => simp [getValuePath, h]
  | some v =>
      cases v <;> simp [getValuePath, h]
      case obj sub => cases h2 : lookupKey sub k2 <;> simp [getValuePath, h2]

theorem mergeOne_not_obj {v : Value} (hv : v.isObj = false) (o : Option Value) :
    mergeOne o v = v := by
  cases o with
  | none => cases v <;> simp [mergeOne]
  | some tw => cases tw <;> cases v <;> simp [mergeOne] <;> simp [Value.isObj] at hv

/-- Fields of a depth-two well-formed source resolve through one merge step
by preferring the incoming source. -/
theorem getValuePath_merge_two (t s : Fields) (hs : wfTwo s = true) (k1 k2 : String) :
    getValuePath (.obj (deepMergeFields t s)) [k1, k2]
      = orElseO (getValuePath (.obj s) [k1, k2]) (getValuePath (.obj t) [k1, k2]) := by
  rw [getValuePath_obj_pair, getValuePath_obj_pair, getValuePath_obj_pair]
  cases h1 : lookupKey s k1 with
  | none =>
      rw [lookup_deepMergeFields_none (wfTwo_nodup hs) t h1]
      cases h2 : lookupKey t k1 with
      | none => simp [orElseO]
      | some tv => cases tv <;> simp [orElseO]
  | some sv =>
      obtain ⟨sf, rfl, hsfn, hsff⟩ := wfTwo_lookup hs h1
      rw [lookup_deepMergeFields_some (wfTwo_nodup hs) t h1]
      cases h2 : lookupKey t k1 with
      | none =>
          simp only [mergeOne]
          cases h3 : lookupKey sf k2 <;> simp [orElseO, h3]
      | some tv =>
          cases tv with
          | obj tf =>
              simp only [mergeOne]
              cases h3 : lookupKey sf k2 with
              | none =>
                  rw [lookup_deepMergeFields_none hsfn tf h3]
                  cases lookupKey tf k2 <;> simp [orElseO]
              | some v =>
                  rw [lookup_deepMergeFields_some hsfn tf h3,
                    mergeOne_not_obj (flatObj_lookup hsff h3)]
                  simp [orElseO]
          | str a =>
              simp only [mergeOne]
              cases h3 : lookupKey sf k2 <;> simp [orElseO, h3]
          | num a =>
              simp only [mergeOne]
              cases h3 : lookupKey sf k2 <;> simp [orElseO, h3]
          | bool a =>
              simp only [mergeOne]
              cases h3 : lookupKey sf k2 <;> simp [orElseO, h3]
          | null =>
              simp only [mergeOne]
              cases h3 : lookupKey sf k2 <;> simp [orElseO, h3]
          | arr a =>
              simp only [mergeOne]
              cases h3 : lookupKey sf k2 <;> simp [orElseO, h3]

theorem getValuePath_foldl_merge (srcs : List Fields) (k1 k2 : String) :
    ∀ acc : Fields, (∀ s ∈ srcs, wfTwo s = true) →
    getValuePath (.obj (srcs.foldl deepMergeFields acc)) [k1, k2]
      = srcs.foldl (fun r s => orElseO (getValuePath (.obj s) [k1, k2]) r)
          (getValuePath (.obj acc) [k1, k2]) := by
  induction srcs with
  | nil => intro acc _; simp
  | cons s rest ih =>
      intro acc h
      simp only [List.foldl_cons]
      rw [ih (deepMergeFields acc s) fun x hx => h x (List.mem_cons_of_mem _ hx),
        getValuePath_merge_two acc s (h s (List.mem_cons_self _ _)) k1 k2]

theorem foldl_orElseO_getLast (g : Fields → Option Value) (l : List Fields) :
    ∀ init : Option Value,
    l.foldl (fun r s => orElseO (g s) r) init = orElseO ((l.filterMap g).getLast?) init := by
  induction l with
  | nil => intro init; simp [orElseO]
  | cons s rest ih =>
      intro init
      simp only [List.foldl_cons]
      rw [ih]
      cases hg : g s with
      | none => simp [List.filterMap_cons, hg, orElseO]
      | some v =>
          simp only [List.filterMap_cons, hg]
          cases hr : rest.filterMap g with
          | nil => simp [orElseO]
          | cons y ys =>
              rw [List.getLast?_cons_cons]
              rcases hw : (y :: ys).getLast? with _ | w
              · simp at hw
              · simp [orElseO]

/-- Claim C5: for every pair of sources merged by `deepMerge` and every key
present in the incoming source, if both the accumulated and incoming values
at that key are mappings the result at that key is the recursive `deepMerge`
of the two; otherwise (either side a scalar or an array) the result is the
incoming value verbatim — in particular an incoming array replaces the
accumulated value whole and is never concatenated. -/
theorem deepMerge_key_law (t s : Fields) (k : String) (sv : Value)
    (hs : nodupKeys s = true) (hmem : lookupKey s k = some sv) :
    (lookupKey (deepMergeFields t s) k
      = match lookupKey t k, sv with
        | some (Value.obj tf), Value.obj sf => some (Value.obj (deepMergeFields tf sf))
        | _, _ => some sv)
    ∧ ∀ xs, sv = Value.arr xs → lookupKey (deepMergeFields t s) k = some (Value.arr xs) := by
  have h := lookup_deepMergeFields_some hs t hmem
  constructor
  · rw [h]
    cases htk : lookupKey t k with
    | none => cases sv <;> simp [mergeOne]
    | some tv => cases tv <;> cases sv <;> simp [mergeOne]
  · intro xs hxs
    subst hxs
    rw [h, mergeOne_not_obj (by simp [Value.isObj])]

theorem deepMerge_key_law_witness :
    lookupKey
      (deepMergeFields [("a", Value.arr [Value.str "1"]), ("b", Value.str "x")]
        [("a", Value.arr [Value.str "2", Value.str "3"])]) "a"
      = some (Value.arr [Value.str "2", Value.str "3"]) :=
  (deepMerge_key_law [("a", Value.arr [Value.str "1"]), ("b", Value.str "x")]
    [("a", Value.arr [Value.str "2", Value.str "3"])] "a"
    (Value.arr [Value.str "2", Value.str "3"]) (by rfl) (by rfl)).2 _ rfl

/-- Claim C3: for every leaf key path of the two-level configuration shape,
`loadConfig`'s merge pipeline resolves the path to the value of the
highest-precedence source defining it (sources ordered built-in defaults,
global document, project document, explicit override document, environment);
a path defined by exactly one source resolves to that source's value.  The
right-hand side is the last hit in precedence order, so both readings of the
claim are this single equation. -/
theorem loadConfig_precedence (defaults : Fields)
    (globalDoc projectDoc customDoc : Option Fields) (env : Fields) (k1 k2 : String)
    (hd : wfTwo defaults = true)
    (hg : ∀ g ∈ globalDoc, wfTwo g = true)
    (hp : ∀ p ∈ projectDoc, wfTwo p = true)
    (hc : ∀ c ∈ customDoc, wfTwo c = true)
    (he : wfTwo env = true) :
    getValuePath (.obj (loadConfigPure defaults globalDoc projectDoc customDoc env)) [k1, k2]
      = ((configSources defaults globalDoc projectDoc customDoc env).filterMap
          fun s => getValuePath (.obj s) [k1, k2]).getLast? := by
  have hall : ∀ s ∈ configSources defaults globalDoc projectDoc customDoc env,
      wfTwo s = true := by
    intro s hsrc
    simp only [configSources, List.append_assoc, List.mem_append, List.mem_singleton,
      Option.mem_toList] at hsrc
    rcases hsrc with rfl | hg' | hp' | hc' | rfl
    · exact hd
    · exact hg _ hg'
    · exact hp _ hp'
    · exact hc _ hc'
    · exact he
  rw [loadConfigPure, getValuePath_foldl_merge _ _ _ [] hall, foldl_orElseO_getLast]
  have hnil : getValuePath (.obj ([] : Fields)) [k1, k2] = none := by
    simp [getValuePath, lookupKey]
  rw [hnil]
  cases ((configSources defaults globalDoc projectDoc customDoc env).filterMap
      fun s => getValuePath (.obj s) [k1, k2]).getLast? <;> simp [orElseO]

theorem loadConfig_precedence_witness :
    getValuePath (.obj (loadConfigPure
        [("model", Value.obj [("default", Value.str "m1")]),
         ("output", Value.obj [("resolution", Value.str "1k")])]
        (some [("output", Value.obj [("resolution", Value.str "2k")])])
        (some [("model", Value.obj [("default", Value.str "m2")])])
        none [])) ["model", "default"] = some (Value.str "m2")
    ∧ getValuePath (.obj (loadConfigPure
        [("model", Value.obj [("default", Value.str "m1")]),
         ("output", Value.obj [("resolution", Value.str "1k")])]
        (some [("output", Value.obj [("resolution", Value.str "2k")])])
        (some [("model", Value.obj [("default", Value.str "m2")])])
        none [])) ["output", "resolution"] = some (Value.str "2k") := by
  constructor
  · rw [loadConfig_precedence _ _ _ _ _ _ _ (by rfl)
      (by intro g hg; rw [Option.mem_def] at hg; cases hg; rfl)
      (by intro p hp; rw [Option.mem_def] at hp; cases hp; rfl)
      (by intro c hc; rw [Option.mem_def] at hc; cases hc) (by rfl)]
    rfl
  · rw [loadConfig_precedence _ _ _ _ _ _ _ (by rfl)
      (by intro g hg; rw [Option.mem_def] at hg; cases hg; rfl)
      (by intro p hp; rw [Option.mem_def] at hp; cases hp; rfl)
      (by intro c hc; rw [Option.mem_def] at hc; cases hc) (by rfl)]
    rfl

/-- The members of `AspectRatioSchema` in `src/config/schema.ts`. -/
def aspectRatios : List String :=
  ["1:1", "1:4", "1:8", "2:3", "3:2", "3:4", "4:1", "4:3", "4:5", "5:4",
   "8:1", "9:16", "16:9", "21:9"]

theorem lookupKey_append {α : Type} (l1 l2 : List (String × α)) (k : String) :
    lookupKey (l1 ++ l2) k
      = match lookupKey l1 k with
        | some v => some v
        | none => lookupKey l2 k := by
  induction l1 with
  | nil => simp [lookupKey]
  | cons p rest ih =>
      obtain ⟨k', v'⟩ := p
      by_cases h : k' = k <;> simp [lookupKey, h, ih]

/-- Claim C4, counterexample: `BNN_ASPECT_RATIO` is applied with an
`as any` cast and no validation, so an invalid aspect-ratio value is not
ignored: it lands in the environment source and overrides the
lower-precedence default in the effective config. -/
theorem env_aspect_unvalidated_cex :
    aspectRatios.contains "bogus" = false
    ∧ loadEnvConfig
        { apiKey := none, endpoint := none, model := none, thinking := none,
          outputDir := none, resolution := none, aspect := some "bogus" }
        = [("output", Value.obj [("aspect_ratio", Value.str "bogus")])]
    ∧ getValuePath
        (.obj (loadConfigPure [("output", Value.obj [("aspect_ratio", Value.str "1:1")])]
          none none none
          (loadEnvConfig
            { apiKey := none, endpoint := none, model := none, thinking := none,
              outputDir := none, resolution := none, aspect := some "bogus" })))
        ["output", "aspect_ratio"] = some (Value.str "bogus") := by
  refine ⟨rfl, rfl, ?_⟩
  have henv : loadEnvConfig
      { apiKey := none, endpoint := none, model := none, thinking := none,
        outputDir := none, resolution := none, aspect := some "bogus" }
      = [("output", Value.obj [("aspect_ratio", Value.str "bogus")])] := rfl
  have h1 : deepMergeFields ([] : Fields)
      [("output", Value.obj [("aspect_ratio", Value.str "1:1")])]
      = [("output", Value.obj [("aspect_ratio", Value.str "1:1")])] := by
    simp [deepMergeFields_cons, deepMergeFields_nil, mergeOne, lookupKey, setKey]
  have h2 : deepMergeFields [("output", Value.obj [("aspect_ratio", Value.str "1:1")])]
      [("output", Value.obj [("aspect_ratio", Value.str "bogus")])]
      = [("output", Value.obj [("aspect_ratio", Value.str "bogus")])] := by
    simp [deepMergeFields_cons, deepMergeFields_nil, mergeOne, lookupKey, setKey]
  rw [loadConfigPure, configSources, henv]
  simp only [Option.toList]
  simp only [List.nil_append, List.append_nil, List.cons_append, List.singleton_append]
  simp only [List.foldl_cons, List.foldl_nil]
  rw [h1, h2]
  rfl

theorem apiPart_no_model (e : Env) : lookupKey (apiPart e) "model" = none := by
  rw [apiPart]
  split <;> simp [lookupKey]

theorem apiPart_no_output (e : Env) : lookupKey (apiPart e) "output" = none := by
  rw [apiPart]
  split <;> simp [lookupKey]

theorem modelPart_no_output (e : Env) : lookupKey (modelPart e) "output" = none := by
  rw [modelPart]
  split <;> simp [lookupKey]

theorem outputPart_no_model (e : Env) : lookupKey (outputPart e) "model" = none := by
  rw [outputPart]
  split <;> simp [lookupKey]

theorem loadEnvConfig_model (e : Env) :
    lookupKey (loadEnvConfig e) "model" = lookupKey (modelPart e) "model" := by
  rw [loadEnvConfig, lookupKey_append, lookupKey_append, apiPart_no_model,
    outputPart_no_model]
  cases lookupKey (modelPart e) "model" <;> rfl

theorem loadEnvConfig_output (e : Env) :
    lookupKey (loadEnvConfig e) "output" = lookupKey (outputPart e) "output" := by
  rw [loadEnvConfig, lookupKey_append, lookupKey_append, apiPart_no_output,
    modelPart_no_output]

theorem lookupKey_chunk_ne (c : Prop) [Decidable c] (k k2 : String) (v : Value)
    (hne : k ≠ k2) : lookupKey (if c then [(k, v)] else []) k2 = none := by
  split <;> simp [lookupKey, hne]

theorem lookupKey_chunk_false {c : Prop} [Decidable c] (hc : ¬c) (k k2 : String)
    (v : Value) : lookupKey (if c then [(k, v)] else []) k2 = none := by
  rw [if_neg hc]
  rfl

theorem lookupKey_chunk_self (c : Prop) [Decidable c] (k : String) (v : Value) :
    lookupKey (if c then [(k, v)] else []) k = if c then some v else none := by
  split <;> simp [lookupKey]

/-- Claim C4, amended: environment values for the model, thinking level and
output resolution are applied only when they pass their enumeration checks
and are ignored (left out of the environment source, so lower-precedence
values survive) when they do not; the output aspect ratio, however, is
applied verbatim whenever the variable is set and non-empty, with no
validation. -/
theorem env_enum_validation (e : Env) :
    (∀ m, e.model = some m → supportedModels.contains m = false →
        getValuePath (.obj (loadEnvConfig e)) ["model", "default"] = none)
    ∧ (∀ t, e.thinking = some t → ["minimal", "high", "dynamic"].contains t = false →
        getValuePath (.obj (loadEnvConfig e)) ["model", "thinking"] = none)
    ∧ (∀ r, e.resolution = some r → ["512px", "1k", "2k", "4k"].contains r = false →
        getValuePath (.obj (loadEnvConfig e)) ["output", "resolution"] = none)
    ∧ (∀ a, e.aspect = some a → a ≠ "" →
        getValuePath (.obj (loadEnvConfig e)) ["output", "aspect_ratio"]
          = some (Value.str a)) := by
  refine ⟨?_, ?_, ?_, ?_⟩
  · intro m hx hcheck
    rw [getValuePath_obj_pair, loadEnvConfig_model, modelPart]
    have hc : ¬((truthy e.model && supportedModels.contains (e.model.getD "")) = true) := by
      rw [hx, Option.getD_some, hcheck, Bool.and_false]
      exact Bool.false_ne_true
    have hmf : lookupKey (modelFieldsOf e) "default" = none := by
      rw [modelFieldsOf, lookupKey_append, lookupKey_chunk_false hc,
        lookupKey_chunk_ne _ _ _ _ (by decide)]
    by_cases hem : (modelFieldsOf e).isEmpty = true
    · rw [if_pos hem]
      rfl
    · rw [if_neg hem]
      exact hmf
  · intro t hx hcheck
    rw [getValuePath_obj_pair, loadEnvConfig_model, modelPart]
    have hc : ¬((truthy e.thinking
        && ["minimal", "high", "dynamic"].contains (e.thinking.getD "")) = true) := by
      rw [hx, Option.getD_some, hcheck, Bool.and_false]
      exact Bool.false_ne_true
    have hmf : lookupKey (modelFieldsOf e) "thinking" = none := by
      rw [modelFieldsOf, lookupKey_append,
        lookupKey_chunk_ne _ _ _ _ (by decide), lookupKey_chunk_false hc]
    by_cases hem : (modelFieldsOf e).isEmpty = true
    · rw [if_pos hem]
      rfl
    · rw [if_neg hem]
      exact hmf
  · intro r hx hcheck
    rw [getValuePath_obj_pair, loadEnvConfig_output, outputPart, lookupKey_chunk_self]
    have hres : ¬((truthy e.resolution
        && ["512px", "1k", "2k", "4k"].contains (e.resolution.getD "")) = true) := by
      rw [hx, Option.getD_some, hcheck, Bool.and_false]
      exact Bool.false_ne_true
    have hout : lookupKey (outputFieldsOf e) "resolution" = none := by
      rw [outputFieldsOf, lookupKey_append, lookupKey_append,
        lookupKey_chunk_ne _ _ _ _ (by decide), lookupKey_chunk_false hres,
        lookupKey_chunk_ne _ _ _ _ (by decide)]
    by_cases hoc : (truthy e.outputDir || truthy e.resolution || truthy e.aspect) = true
    · rw [if_pos hoc]
      simp [hout]
    · rw [if_neg hoc]
  · intro a hx hne
    rw [getValuePath_obj_pair, loadEnvConfig_output, outputPart, lookupKey_chunk_self]
    have htr : truthy e.aspect = true := by simp [hx, truthy, hne]
    have hoc : (truthy e.outputDir || truthy e.resolution || truthy e.aspect) = true := by
      rw [htr]
      simp
    have hout : lookupKey (outputFieldsOf e) "aspect_ratio" = some (Value.str a) := by
      rw [outputFieldsOf, lookupKey_append, lookupKey_append,
        lookupKey_chunk_ne _ _ _ _ (by decide), lookupKey_chunk_ne _ _ _ _ (by decide),
        lookupKey_chunk_self, if_pos htr, hx, Option.getD_some]
    rw [if_pos hoc]
    simp [hout]

theorem env_enum_validation_witness :
    getValuePath (.obj (loadEnvConfig
      { apiKey := none, endpoint := none, model := some "bogus-model",
        thinking := some "loud", outputDir := none, resolution := some "8k",
        aspect := some "7:5" })) ["model", "default"] = none
    ∧ getValuePath (.obj (loadEnvConfig
      { apiKey := none, endpoint := none, model := some "bogus-model",
        thinking := some "loud", outputDir := none, resolution := some "8k",
        aspect := some "7:5" })) ["model", "thinking"] = none
    ∧ getValuePath (.obj (loadEnvConfig
      { apiKey := none, endpoint := none, model := some "bogus-model",
        thinking := some "loud", outputDir := none, resolution := some "8k",
        aspect := some "7:5" })) ["output", "resolution"] = none
    ∧ getValuePath (.obj (loadEnvConfig
      { apiKey := none, endpoint := none, model := some "bogus-model",
        thinking := some "loud", outputDir := none, resolution := some "8k",
        aspect := some "7:5" })) ["output", "aspect_ratio"]
        = some (Value.str "7:5") := by
  have h := env_enum_validation
    { apiKey := none, endpoint := none, model := some "bogus-model",
      thinking := some "loud", outputDir := none, resolution := some "8k",
      aspect := some "7:5" }
  exact ⟨h.1 _ rfl (by rfl), h.2.1 _ rfl (by rfl), h.2.2.1 _ rfl (by rfl),
    h.2.2.2 _ rfl (by simp)⟩

/-- Whether the first segment list is an initial segment of the second. -/
def leadsOf : List String → List String → Bool
  | [], _ => true
  | _ :: _, [] => false
  | a :: p, b :: q => a == b && leadsOf p q

/-- Two dotted paths overlap when either is an initial segment of the
other; a set/unset at one path can only disturb reads at overlapping
paths. -/
def pathsOverlap (p q : List String) : Bool := leadsOf p q || leadsOf q p

theorem splitDotAux_ne_nil (acc cs) : splitDotAux acc cs ≠ [] := by
  induction cs generalizing acc with
  | nil => simp [splitDotAux]
  | cons c rest ih =>
      by_cases h : c = '.' <;> simp [splitDotAux, h, ih]

theorem splitDot_ne_nil (s : String) : splitDot s ≠ [] := splitDotAux_ne_nil [] s.data

theorem pathsOverlap_comm (p q : List String) :
    pathsOverlap p q = pathsOverlap q p := by
  rw [pathsOverlap, pathsOverlap, Bool.or_comm]

theorem setNestedParts_nil (doc : Fields) (v : Value) : setNestedParts doc [] v = doc :=
  rfl

theorem setNestedParts_single (doc : Fields) (leaf : String) (v : Value) :
    setNestedParts doc [leaf] v = setKey doc leaf v := rfl

theorem setNestedParts_cons2 (doc : Fields) (part k1 : String) (krest : List String)
    (v : Value) :
    setNestedParts doc (part :: k1 :: krest) v
      = setKey doc part (Value.obj (setNestedParts (subAt doc part) (k1 :: krest) v)) :=
  rfl

theorem subAt_none {doc : Fields} {part : String} (h : lookupKey doc part = none) :
    subAt doc part = [] := by
  rw [subAt, h]

theorem subAt_obj {doc : Fields} {part : String} {sub : Fields}
    (h : lookupKey doc part = some (Value.obj sub)) : subAt doc part = sub := by
  rw [subAt, h]

theorem subAt_not_obj {doc : Fields} {part : String} {w : Value}
    (h : lookupKey doc part = some w) (hw : w.isObj = false) : subAt doc part = [] := by
  cases w <;> simp only [subAt, h] <;> simp [Value.isObj] at hw

theorem getValuePath_obj_cons (fs : Fields) (p0 : String) (prest : List String) :
    getValuePath (.obj fs) (p0 :: prest)
      = match lookupKey fs p0 with
        | some v => getValuePath v prest
        | none => none := rfl

theorem getValuePath_obj_cons_some {fs : Fields} {p0 : String} {w : Value}
    (prest : List String) (h : lookupKey fs p0 = some w) :
    getValuePath (.obj fs) (p0 :: prest) = getValuePath w prest := by
  rw [getValuePath_obj_cons, h]

theorem getValuePath_obj_cons_none {fs : Fields} {p0 : String}
    (prest : List String) (h : lookupKey fs p0 = none) :
    getValuePath (.obj fs) (p0 :: prest) = none := by
  rw [getValuePath_obj_cons, h]

theorem getValuePath_not_obj {w : Value} (hw : w.isObj = false) (p0 : String)
    (prest : List String) : getValuePath w (p0 :: prest) = none := by
  cases w <;> simp [getValuePath] <;> simp [Value.isObj] at hw

/-- Frame property of one nested set: a read at a path that does not
overlap the written key is unchanged. -/
theorem getValuePath_setNestedParts_frame (kp : List String) :
    ∀ (doc : Fields) (p : List String) (v : Value),
    pathsOverlap kp p = false →
    getValuePath (.obj (setNestedParts doc kp v)) p = getValuePath (.obj doc) p := by
  induction kp with
  | nil => intro doc p v _; rfl
  | cons part kp' ih =>
      intro doc p v hov
      cases p with
      | nil =>
          exfalso
          simp [pathsOverlap, leadsOf] at hov
      | cons p0 prest =>
          by_cases hp0 : part = p0
          · subst hp0
            simp only [pathsOverlap, leadsOf, beq_self_eq_true, Bool.true_and,
              Bool.or_eq_false_iff] at hov
            have hov2 : pathsOverlap kp' prest = false := by
              rw [pathsOverlap, hov.1, hov.2]
              rfl
            cases kp' with
            | nil =>
                exfalso
                have := hov.1
                simp [leadsOf] at this
            | cons k1 krest =>
                cases prest with
                | nil =>
                    exfalso
                    have := hov.2
                    simp [leadsOf] at this
                | cons q0 qrest =>
                    rw [setNestedParts_cons2,
                      getValuePath_obj_cons_some (q0 :: qrest)
                        (lookupKey_setKey_self doc part _)]
                    cases hl : lookupKey doc part with
                    | none =>
                        rw [subAt_none hl, ih [] (q0 :: qrest) v hov2,
                          getValuePath_obj_cons_none (q0 :: qrest) hl]
                        rfl
                    | some w =>
                        rw [getValuePath_obj_cons_some (q0 :: qrest) hl]
                        cases w with
                        | obj sub => rw [subAt_obj hl, ih sub (q0 :: qrest) v hov2]
                        | str a =>
                            rw [subAt_not_obj hl (by rfl), ih [] (q0 :: qrest) v hov2]
                            rfl
                        | num a =>
                            rw [subAt_not_obj hl (by rfl), ih [] (q0 :: qrest) v hov2]
                            rfl
                        | bool a =>
                            rw [subAt_not_obj hl (by rfl), ih [] (q0 :: qrest) v hov2]
                            rfl
                        | null =>
                            rw [subAt_not_obj hl (by rfl), ih [] (q0 :: qrest) v hov2]
                            rfl
                        | arr a =>
                            rw [subAt_not_obj hl (by rfl), ih [] (q0 :: qrest) v hov2]
                            rfl
          · have hset : ∀ w, lookupKey (setKey doc part w) p0 = lookupKey doc p0 :=
              fun w => lookupKey_setKey_ne doc hp0 w
            cases kp' with
            | nil =>
                rw [setNestedParts_single, getValuePath_obj_cons, getValuePath_obj_cons,
                  hset]
            | cons k1 krest =>
                rw [setNestedParts_cons2, getValuePath_obj_cons, getValuePath_obj_cons,
                  hset]

/-- One nested set makes the written key readable with the written value. -/
theorem getValuePath_setNestedParts_self (kp : List String) (hne : kp ≠ []) :
    ∀ (doc : Fields) (v : Value),
    getValuePath (.obj (setNestedParts doc kp v)) kp = some v := by
  induction kp with
  | nil => exact absurd rfl hne
  | cons part kp' ih =>
      intro doc v
      cases kp' with
      | nil =>
          rw [setNestedParts_single,
            getValuePath_obj_cons_some [] (lookupKey_setKey_self doc part v)]
          cases v <;> rfl
      | cons k1 krest =>
          rw [setNestedParts_cons2,
            getValuePath_obj_cons_some (k1 :: krest) (lookupKey_setKey_self doc part _)]
          exact ih (by simp) _ v

theorem getValuePath_setMany_frame (us : List (String × Value)) :
    ∀ (doc : Fields) (p : List String),
    (∀ k ∈ us.map Prod.fst, pathsOverlap (splitDot k) p = false) →
    getValuePath (.obj (setConfigValuesPure doc us)) p = getValuePath (.obj doc) p := by
  induction us with
  | nil => intro doc p _; rfl
  | cons kv rest ih =>
      intro doc p h
      rw [setConfigValuesPure, List.foldl_cons]
      have h0 := h kv.1 (by simp)
      have hrest : ∀ k ∈ rest.map Prod.fst, pathsOverlap (splitDot k) p = false := by
        intro k hk
        exact h k (by simp [hk])
      have := ih (setNestedValue doc kv.1 kv.2) p hrest
      rw [setConfigValuesPure] at this
      rw [this, setNestedValue, getValuePath_setNestedParts_frame _ _ _ _ h0]

/-- Claim C7: after a `setMany` call on a layer document, a read of any
dotted key that does not overlap a touched key returns exactly what it
returned before, and a read of each touched key returns the newly set
value (update keys are assumed pairwise non-overlapping, as in any actual
call; overlapping keys in one call would clobber each other). -/
theorem setMany_read_law (doc : Fields) (us : List (String × Value))
    (hnc : (us.map Prod.fst).Pairwise
      fun a b => pathsOverlap (splitDot a) (splitDot b) = false) :
    (∀ p : List String, (∀ k ∈ us.map Prod.fst, pathsOverlap (splitDot k) p = false) →
        getValuePath (.obj (setConfigValuesPure doc us)) p = getValuePath (.obj doc) p)
    ∧ ∀ kv ∈ us,
        getValuePath (.obj (setConfigValuesPure doc us)) (splitDot kv.1) = some kv.2 := by
  constructor
  · intro p hp
    exact getValuePath_setMany_frame us doc p hp
  · induction us generalizing doc with
    | nil => intro kv hkv; simp at hkv
    | cons kv0 rest ih =>
        intro kv hkv
        rw [List.map_cons, List.pairwise_cons] at hnc
        rw [setConfigValuesPure, List.foldl_cons]
        rcases List.mem_cons.mp hkv with rfl | hmem
        · have hfr : ∀ k ∈ rest.map Prod.fst,
              pathsOverlap (splitDot k) (splitDot kv.1) = false := by
            intro k hk
            rw [pathsOverlap_comm]
            exact hnc.1 k hk
          have := getValuePath_setMany_frame rest
            (setNestedValue doc kv.1 kv.2) (splitDot kv.1) hfr
          rw [setConfigValuesPure] at this
          rw [this, setNestedValue,
            getValuePath_setNestedParts_self _ (splitDot_ne_nil _)]
        · have := ih (setNestedValue doc kv0.1 kv0.2) hnc.2 kv hmem
          rw [setConfigValuesPure] at this
          exact this

theorem setMany_read_law_witness :
    getValuePath (.obj (setConfigValuesPure [("output", Value.obj [("resolution", Value.str "1k")])]
        [("model.default", Value.str "m2"), ("output.naming", Value.str "prompt")]))
      ["output", "resolution"]
      = getValuePath (.obj [("output", Value.obj [("resolution", Value.str "1k")])])
          ["output", "resolution"]
    ∧ getValuePath (.obj (setConfigValuesPure [("output", Value.obj [("resolution", Value.str "1k")])]
        [("model.default", Value.str "m2"), ("output.naming", Value.str "prompt")]))
      (splitDot "model.default") = some (Value.str "m2")
    ∧ getValuePath (.obj (setConfigValuesPure [("output", Value.obj [("resolution", Value.str "1k")])]
        [("model.default", Value.str "m2"), ("output.naming", Value.str "prompt")]))
      (splitDot "output.naming") = some (Value.str "prompt") := by
  have h := setMany_read_law [("output", Value.obj [("resolution", Value.str "1k")])]
    [("model.default", Value.str "m2"), ("output.naming", Value.str "prompt")]
    (by constructor
        · intro b hb
          simp only [List.map_cons, List.map_nil, List.mem_cons, List.mem_singleton] at hb
          rcases hb with rfl | h'
          · decide
          · simp at h'
        · constructor
          · intro b hb
            simp at hb
          · exact List.Pairwise.nil)
  refine ⟨h.1 ["output", "resolution"] ?_,
    h.2 ("model.default", Value.str "m2") (by simp),
    h.2 ("output.naming", Value.str "prompt") (by simp)⟩
  intro k hk
  simp only [List.map_cons, List.map_nil, List.mem_cons, List.mem_singleton] at hk
  rcases hk with rfl | hk'
  · decide
  · rcases hk' with rfl | hk''
    · decide
    · simp at hk''

theorem lookupKey_removeKey_self {α : Type} (l : List (String × α)) (k : String) :
    lookupKey (removeKey l k) k = none := by
  induction l with
  | nil => rfl
  | cons p rest ih =>
      obtain ⟨k', v⟩ := p
      by_cases h : k' = k <;> simp [removeKey, lookupKey, h, ih]

theorem lookupKey_removeKey_ne {α : Type} (l : List (String × α)) {k x : String}
    (h : x ≠ k) : lookupKey (removeKey l k) x = lookupKey l x := by
  induction l with
  | nil => rfl
  | cons p rest ih =>
      obtain ⟨k', v⟩ := p
      by_cases h' : k' = k
      · subst h'
        simp [removeKey, lookupKey, Ne.symm h, ih]
      · by_cases h'' : k' = x <;> simp [removeKey, lookupKey, h', h'', ih, h]

theorem setKey_lookup_self {α : Type} {l : List (String × α)} {k : String} {v : α}
    (h : lookupKey l k = some v) : setKey l k v = l := by
  induction l with
  | nil => simp [lookupKey] at h
  | cons p rest ih =>
      obtain ⟨k', v'⟩ := p
      by_cases h' : k' = k
      · subst h'
        rw [lookupKey, if_pos rfl] at h
        injection h with hv
        subst hv
        simp [setKey]
      · rw [lookupKey, if_neg h'] at h
        simp [setKey, h', ih h]

theorem existsPath_single (doc : Fields) (leaf : String) :
    existsPath doc [leaf] = (lookupKey doc leaf).isSome := rfl

theorem existsPath_cons2_obj {doc : Fields} {part : String} {sub : Fields}
    (k1 : String) (krest : List String)
    (hl : lookupKey doc part = some (Value.obj sub)) :
    existsPath doc (part :: k1 :: krest) = existsPath sub (k1 :: krest) := by
  simp only [existsPath, hl]

theorem existsPath_cons2_none {doc : Fields} {part : String}
    (k1 : String) (krest : List String) (hl : lookupKey doc part = none) :
    existsPath doc (part :: k1 :: krest) = false := by
  simp only [existsPath, hl]

theorem existsPath_cons2_not_obj {doc : Fields} {part : String} {w : Value}
    (k1 : String) (krest : List String) (hl : lookupKey doc part = some w)
    (hw : w.isObj = false) : existsPath doc (part :: k1 :: krest) = false := by
  cases w <;> simp only [existsPath, hl] <;> simp [Value.isObj] at hw

theorem unset_single (doc : Fields) (leaf : String) :
    unsetNestedParts doc [leaf]
      = if (lookupKey doc leaf).isSome then (removeKey doc leaf, true)
        else (doc, false) := rfl

theorem unset_cons2_obj {doc : Fields} {part : String} {sub : Fields}
    (k1 : String) (krest : List String)
    (hl : lookupKey doc part = some (Value.obj sub)) :
    unsetNestedParts doc (part :: k1 :: krest)
      = (setKey doc part (Value.obj (unsetNestedParts sub (k1 :: krest)).1),
         (unsetNestedParts sub (k1 :: krest)).2) := by
  simp only [unsetNestedParts, hl]

theorem unset_cons2_none {doc : Fields} {part : String}
    (k1 : String) (krest : List String) (hl : lookupKey doc part = none) :
    unsetNestedParts doc (part :: k1 :: krest) = (doc, false) := by
  simp only [unsetNestedParts, hl]

theorem unset_cons2_not_obj {doc : Fields} {part : String} {w : Value}
    (k1 : String) (krest : List String) (hl : lookupKey doc part = some w)
    (hw : w.isObj = false) :
    unsetNestedParts doc (part :: k1 :: krest) = (doc, false) := by
  cases w <;> simp only [unsetNestedParts, hl] <;> simp [Value.isObj] at hw

/-- The reported flag of one nested unset is exactly path existence. -/
theorem unset_snd_eq_existsPath (kp : List String) :
    ∀ doc : Fields, (unsetNestedParts doc kp).2 = existsPath doc kp := by
  induction kp with
  | nil => intro doc; rfl
  | cons part kp' ih =>
      intro doc
      cases kp' with
      | nil =>
          rw [unset_single, existsPath_single]
          by_cases h : (lookupKey doc part).isSome <;> simp [h]
      | cons k1 krest =>
          cases hl : lookupKey doc part with
          | none => rw [unset_cons2_none _ _ hl, existsPath_cons2_none _ _ hl]
          | some w =>
              cases w with
              | obj sub =>
                  rw [unset_cons2_obj _ _ hl, existsPath_cons2_obj _ _ hl]
                  exact ih sub
              | str a =>
                  rw [unset_cons2_not_obj _ _ hl (by rfl),
                    existsPath_cons2_not_obj _ _ hl (by rfl)]
              | num a =>
                  rw [unset_cons2_not_obj _ _ hl (by rfl),
                    existsPath_cons2_not_obj _ _ hl (by rfl)]
              | bool a =>
                  rw [unset_cons2_not_obj _ _ hl (by rfl),
                    existsPath_cons2_not_obj _ _ hl (by rfl)]
              | null =>
                  rw [unset_cons2_not_obj _ _ hl (by rfl),
                    existsPath_cons2_not_obj _ _ hl (by rfl)]
              | arr a =>
                  rw [unset_cons2_not_obj _ _ hl (by rfl),
                    existsPath_cons2_not_obj _ _ hl (by rfl)]

/-- A nested unset of a non-existing path changes nothing. -/
theorem unset_of_not_exists (kp : List String) :
    ∀ doc : Fields, existsPath doc kp = false →
    unsetNestedParts doc kp = (doc, false) := by
  induction kp with
  | nil => intro doc _; rfl
  | cons part kp' ih =>
      intro doc hex
      cases kp' with
      | nil =>
          rw [existsPath_single] at hex
          rw [unset_single, hex]
          rfl
      | cons k1 krest =>
          cases hl : lookupKey doc part with
          | none => exact unset_cons2_none _ _ hl
          | some w =>
              cases w with
              | obj sub =>
                  rw [existsPath_cons2_obj _ _ hl] at hex
                  rw [unset_cons2_obj _ _ hl, ih sub hex]
                  exact Prod.ext (setKey_lookup_self hl) rfl
              | str a => exact unset_cons2_not_obj _ _ hl (by rfl)
              | num a => exact unset_cons2_not_obj _ _ hl (by rfl)
              | bool a => exact unset_cons2_not_obj _ _ hl (by rfl)
              | null => exact unset_cons2_not_obj _ _ hl (by rfl)
              | arr a => exact unset_cons2_not_obj _ _ hl (by rfl)

theorem existsPath_eq_isSome (kp : List String) (hne : kp ≠ []) :
    ∀ doc : Fields, existsPath doc kp = (getValuePath (.obj doc) kp).isSome := by
  induction kp with
  | nil => exact absurd rfl hne
  | cons part kp' ih =>
      intro doc
      cases kp' with
      | nil =>
          rw [existsPath_single, getValuePath_obj_single]
      | cons k1 krest =>
          cases hl : lookupKey doc part with
          | none =>
              rw [existsPath_cons2_none _ _ hl, getValuePath_obj_cons_none _ hl]
              rfl
          | some w =>
              cases w with
              | obj sub =>
                  rw [existsPath_cons2_obj _ _ hl, getValuePath_obj_cons_some _ hl]
                  exact ih (by simp) sub
              | str a =>
                  rw [existsPath_cons2_not_obj _ _ hl (by rfl),
                    getValuePath_obj_cons_some _ hl, getValuePath_not_obj (by rfl)]
                  rfl
              | num a =>
                  rw [existsPath_cons2_not_obj _ _ hl (by rfl),
                    getValuePath_obj_cons_some _ hl, getValuePath_not_obj (by rfl)]
                  rfl
              | bool a =>
                  rw [existsPath_cons2_not_obj _ _ hl (by rfl),
                    getValuePath_obj_cons_some _ hl, getValuePath_not_obj (by rfl)]
                  rfl
              | null =>
                  rw [existsPath_cons2_not_obj _ _ hl (by rfl),
                    getValuePath_obj_cons_some _ hl, getValuePath_not_obj (by rfl)]
                  rfl
              | arr a =>
                  rw [existsPath_cons2_not_obj _ _ hl (by rfl),
                    getValuePath_obj_cons_some _ hl, getValuePath_not_obj (by rfl)]
                  rfl

/-- After one nested unset the unset path reads as absent. -/
theorem getValuePath_unset_self (kp : List String) (hne : kp ≠ []) :
    ∀ doc : Fields,
    getValuePath (.obj (unsetNestedParts doc kp).1) kp = none := by
  induction kp with
  | nil => exact absurd rfl hne
  | cons part kp' ih =>
      intro doc
      cases kp' with
      | nil =>
          rw [unset_single]
          by_cases h : (lookupKey doc part).isSome
          · rw [if_pos h]
            rw [getValuePath_obj_single]
            exact lookupKey_removeKey_self doc part
          · rw [if_neg h]
            rw [getValuePath_obj_single]
            cases hl : lookupKey doc part with
            | none => rfl
            | some w => rw [hl] at h; simp at h
      | cons k1 krest =>
          cases hl : lookupKey doc part with
          | none =>
              rw [unset_cons2_none _ _ hl]
              exact getValuePath_obj_cons_none _ hl
          | some w =>
              cases w with
              | obj sub =>
                  rw [unset_cons2_obj _ _ hl,
                    getValuePath_obj_cons_some _ (lookupKey_setKey_self doc part _)]
                  exact ih (by simp) sub
              | str a =>
                  rw [unset_cons2_not_obj _ _ hl (by rfl),
                    getValuePath_obj_cons_some _ hl]
                  exact getValuePath_not_obj (by rfl) _ _
              | num a =>
                  rw [unset_cons2_not_obj _ _ hl (by rfl),
                    getValuePath_obj_cons_some _ hl]
                  exact getValuePath_not_obj (by rfl) _ _
              | bool a =>
                  rw [unset_cons2_not_obj _ _ hl (by rfl),
                    getValuePath_obj_cons_some _ hl]
                  exact getValuePath_not_obj (by rfl) _ _
              | null =>
                  rw [unset_cons2_not_obj _ _ hl (by rfl),
                    getValuePath_obj_cons_some _ hl]
                  exact getValuePath_not_obj (by rfl) _ _
              | arr a =>
                  rw [unset_cons2_not_obj _ _ hl (by rfl),
                    getValuePath_obj_cons_some _ hl]
                  exact getValuePath_not_obj (by rfl) _ _

/-- Frame property of one nested unset. -/
theorem getValuePath_unset_frame (kp : List String) :
    ∀ (doc : Fields) (q : List String),
    pathsOverlap kp q = false →
    getValuePath (.obj (unsetNestedParts doc kp).1) q = getValuePath (.obj doc) q := by
  induction kp with
  | nil => intro doc q _; rfl
  | cons part kp' ih =>
      intro doc q hov
      cases q with
      | nil =>
          exfalso
          simp [pathsOverlap, leadsOf] at hov
      | cons q0 qrest =>
          by_cases hp0 : part = q0
          · subst hp0
            simp only [pathsOverlap, leadsOf, beq_self_eq_true, Bool.true_and,
              Bool.or_eq_false_iff] at hov
            have hov2 : pathsOverlap kp' qrest = false := by
              rw [pathsOverlap, hov.1, hov.2]
              rfl
            cases kp' with
            | nil =>
                exfalso
                have := hov.1
                simp [leadsOf] at this
            | cons k1 krest =>
                cases hl : lookupKey doc part with
                | none => rw [unset_cons2_none _ _ hl]
                | some w =>
                    cases w with
                    | obj sub =>
                        rw [unset_cons2_obj _ _ hl,
                          getValuePath_obj_cons_some qrest
                            (lookupKey_setKey_self doc part _),
                          getValuePath_obj_cons_some qrest hl]
                        exact ih sub qrest hov2
                    | str a => rw [unset_cons2_not_obj _ _ hl (by rfl)]
                    | num a => rw [unset_cons2_not_obj _ _ hl (by rfl)]
                    | bool a => rw [unset_cons2_not_obj _ _ hl (by rfl)]
                    | null => rw [unset_cons2_not_obj _ _ hl (by rfl)]
                    | arr a => rw [unset_cons2_not_obj _ _ hl (by rfl)]
          · cases kp' with
            | nil =>
                rw [unset_single]
                by_cases h : (lookupKey doc part).isSome
                · rw [if_pos h, getValuePath_obj_cons, getValuePath_obj_cons,
                    lookupKey_removeKey_ne doc (Ne.symm hp0)]
                · rw [if_neg h]
            | cons k1 krest =>
                cases hl : lookupKey doc part with
                | none => rw [unset_cons2_none _ _ hl]
                | some w =>
                    cases w with
                    | obj sub =>
                        rw [unset_cons2_obj _ _ hl, getValuePath_obj_cons,
                          getValuePath_obj_cons, lookupKey_setKey_ne doc hp0]
                    | str a => rw [unset_cons2_not_obj _ _ hl (by rfl)]
                    | num a => rw [unset_cons2_not_obj _ _ hl (by rfl)]
                    | bool a => rw [unset_cons2_not_obj _ _ hl (by rfl)]
                    | null => rw [unset_cons2_not_obj _ _ hl (by rfl)]
                    | arr a => rw [unset_cons2_not_obj _ _ hl (by rfl)]

theorem unsetFold_frame (keys : List String) :
    ∀ (doc : Fields) (c : Nat) (q : List String),
    (∀ k ∈ keys, pathsOverlap (splitDot k) q = false) →
    getValuePath (.obj (keys.foldl unsetStep (doc, c)).1) q
      = getValuePath (.obj doc) q := by
  induction keys with
  | nil => intro doc c q _; rfl
  | cons k0 rest ih =>
      intro doc c q h
      rw [List.foldl_cons]
      rw [show unsetStep (doc, c) k0
          = ((unsetNestedParts doc (splitDot k0)).1,
             if (unsetNestedParts doc (splitDot k0)).2 then c + 1 else c) from rfl]
      rw [ih _ _ q fun k hk => h k (List.mem_cons_of_mem _ hk)]
      exact getValuePath_unset_frame _ doc q (h k0 (List.mem_cons_self _ _))

theorem unsetFold_fst_of_not_exists (keys : List String) :
    ∀ (doc : Fields) (c : Nat),
    (∀ k ∈ keys, existsPath doc (splitDot k) = false) →
    keys.foldl unsetStep (doc, c) = (doc, c) := by
  induction keys with
  | nil => intro doc c _; rfl
  | cons k0 rest ih =>
      intro doc c h
      rw [List.foldl_cons]
      rw [show unsetStep (doc, c) k0
          = ((unsetNestedParts doc (splitDot k0)).1,
             if (unsetNestedParts doc (splitDot k0)).2 then c + 1 else c) from rfl]
      rw [unset_of_not_exists _ doc (h k0 (List.mem_cons_self _ _))]
      exact ih doc c fun k hk => h k (List.mem_cons_of_mem _ hk)

theorem unsetFold_count (keys : List String)
    (hnc : keys.Pairwise fun a b => pathsOverlap (splitDot a) (splitDot b) = false) :
    ∀ (doc : Fields) (c : Nat),
    (keys.foldl unsetStep (doc, c)).2
      = c + (keys.filter fun k => existsPath doc (splitDot k)).length := by
  induction keys with
  | nil => intro doc c; rfl
  | cons k0 rest ih =>
      intro doc c
      rw [List.pairwise_cons] at hnc
      rw [List.foldl_cons]
      rw [show unsetStep (doc, c) k0
          = ((unsetNestedParts doc (splitDot k0)).1,
             if (unsetNestedParts doc (splitDot k0)).2 then c + 1 else c) from rfl]
      have hpres : ∀ k ∈ rest,
          existsPath (unsetNestedParts doc (splitDot k0)).1 (splitDot k)
            = existsPath doc (splitDot k) := by
        intro k hk
        rw [existsPath_eq_isSome _ (splitDot_ne_nil k),
          existsPath_eq_isSome _ (splitDot_ne_nil k),
          getValuePath_unset_frame _ doc _ (hnc.1 k hk)]
      have hfilter : (rest.filter fun k =>
            existsPath (unsetNestedParts doc (splitDot k0)).1 (splitDot k))
          = rest.filter fun k => existsPath doc (splitDot k) :=
        List.filter_congr hpres
      rw [unset_snd_eq_existsPath]
      by_cases hex : existsPath doc (splitDot k0) = true
      · rw [hex, if_pos rfl, ih hnc.2, hfilter, List.filter_cons]
        simp only [hex, if_true, List.length_cons]
        omega
      · have hex' : existsPath doc (splitDot k0) = false := by
          cases h : existsPath doc (splitDot k0)
          · rfl
          · exact absurd h hex
        rw [hex']
        simp only [Bool.false_eq_true, if_false]
        rw [ih hnc.2, hfilter, List.filter_cons]
        simp [hex']

theorem unsetFold_erased (keys : List String)
    (hnc : keys.Pairwise fun a b => pathsOverlap (splitDot a) (splitDot b) = false) :
    ∀ (doc : Fields) (c : Nat) (k : String), k ∈ keys →
    getValuePath (.obj (keys.foldl unsetStep (doc, c)).1) (splitDot k) = none := by
  induction keys with
  | nil => intro doc c k hk; simp at hk
  | cons k0 rest ih =>
      intro doc c k hk
      rw [List.pairwise_cons] at hnc
      rw [List.foldl_cons]
      rw [show unsetStep (doc, c) k0
          = ((unsetNestedParts doc (splitDot k0)).1,
             if (unsetNestedParts doc (splitDot k0)).2 then c + 1 else c) from rfl]
      rcases List.mem_cons.mp hk with rfl | hkrest
      · rw [unsetFold_frame rest _ _ _ fun k2 hk2 => by
            rw [pathsOverlap_comm]
            exact hnc.1 k2 hk2]
        exact getValuePath_unset_self _ (splitDot_ne_nil k) doc
      · exact ih hnc.2 _ _ k hkrest

/-- Claim C8: `unsetMany` on a layer document removes exactly the named
leaf keys that exist, treats keys naming non-existent paths as no-ops, and
returns the number actually removed — the count equals the number of named
keys whose path existed, every named key reads as absent afterwards, every
dotted key not overlapping a named key is unchanged, and when only
non-existent keys are named the count is 0 and the document is unchanged
(the named keys are assumed pairwise non-overlapping, as in any actual
call). -/
theorem unsetMany_law (doc : Fields) (keys : List String)
    (hnc : keys.Pairwise fun a b => pathsOverlap (splitDot a) (splitDot b) = false) :
    (unsetConfigValuesPure doc keys).2
        = (keys.filter fun k => existsPath doc (splitDot k)).length
    ∧ (∀ k ∈ keys,
        getValuePath (.obj (unsetConfigValuesPure doc keys).1) (splitDot k) = none)
    ∧ (∀ q : List String, (∀ k ∈ keys, pathsOverlap (splitDot k) q = false) →
        getValuePath (.obj (unsetConfigValuesPure doc keys).1) q
          = getValuePath (.obj doc) q)
    ∧ ((∀ k ∈ keys, existsPath doc (splitDot k) = false) →
        unsetConfigValuesPure doc keys = (doc, 0)) := by
  refine ⟨?_, ?_, ?_, ?_⟩
  · simpa using unsetFold_count keys hnc doc 0
  · intro k hk
    exact unsetFold_erased keys hnc doc 0 k hk
  · intro q hq
    exact unsetFold_frame keys doc 0 q hq
  · intro h
    exact unsetFold_fst_of_not_exists keys doc 0 h

theorem unsetMany_law_witness :
    (unsetConfigValuesPure [("a", Value.obj [("b", Value.str "x"), ("c", Value.str "y")])]
        ["a.b", "nope.q"]).2 = 1
    ∧ getValuePath (.obj (unsetConfigValuesPure
        [("a", Value.obj [("b", Value.str "x"), ("c", Value.str "y")])]
        ["a.b", "nope.q"]).1) (splitDot "a.b") = none
    ∧ getValuePath (.obj (unsetConfigValuesPure
        [("a", Value.obj [("b", Value.str "x"), ("c", Value.str "y")])]
        ["a.b", "nope.q"]).1) ["a", "c"]
      = getValuePath (.obj [("a", Value.obj [("b", Value.str "x"), ("c", Value.str "y")])])
          ["a", "c"]
    ∧ unsetConfigValuesPure [("a", Value.obj [("b", Value.str "x"), ("c", Value.str "y")])]
        ["zz.k"] = ([("a", Value.obj [("b", Value.str "x"), ("c", Value.str "y")])], 0) := by
  have h := unsetMany_law [("a", Value.obj [("b", Value.str "x"), ("c", Value.str "y")])]
    ["a.b", "nope.q"]
    (by constructor
        · intro b hb
          rw [List.mem_singleton] at hb
          subst hb
          decide
        · exact List.pairwise_singleton _ _)
  have h2 := unsetMany_law [("a", Value.obj [("b", Value.str "x"), ("c", Value.str "y")])]
    ["zz.k"] (List.pairwise_singleton _ _)
  refine ⟨?_, h.2.1 "a.b" (by simp), h.2.2.1 ["a", "c"] ?_, h2.2.2.2 ?_⟩
  · rw [h.1]
    decide
  · intro k hk
    rcases List.mem_cons.mp hk with rfl | hk'
    · decide
    · rw [List.mem_singleton] at hk'
      subst hk'
      decide
  · intro k hk
    rw [List.mem_singleton] at hk
    subst hk
    decide

theorem splitEq_append {kcs : List Char} (hk : '=' ∉ kcs) (vcs : List Char) :
    splitEq (kcs ++ '=' :: vcs) = some (kcs, vcs) := by
  induction kcs with
  | nil => simp [splitEq]
  | cons c rest ih =>
      have hc : c ≠ '=' := fun h => hk (h ▸ List.mem_cons_self _ _)
      have hrest : '=' ∉ rest := fun h => hk (List.mem_cons_of_mem _ h)
      rw [List.cons_append, splitEq, if_neg hc, ih hrest]

theorem not_mem_eq_of_hasEqChar_false {s : String} (h : hasEqChar s = false) :
    '=' ∉ s.data := by
  rw [hasEqChar] at h
  simp at h
  exact h

theorem isSecretKey_ne_empty {key : String} (h : isSecretKey key = true) :
    key ≠ "" := by
  intro heq
  rw [heq] at h
  exact absurd h (by decide)

theorem key_data_cons {key : String} (h : key ≠ "") :
    ∃ c cs, key.data = c :: cs := by
  cases hk : key.data with
  | nil =>
      exfalso
      apply h
      calc key = String.mk key.data := rfl
        _ = String.mk [] := by rw [hk]
        _ = "" := rfl
  | cons c cs => exact ⟨c, cs, rfl⟩

theorem runSetEntries_pair (k v stdin : String) :
    runSetEntries [k, v] stdin
      = if !hasEqChar k && !hasEqChar v then processLegacy k v stdin
        else processMulti [k, v] stdin [] := rfl

theorem runSetEntries_single (e stdin : String) :
    runSetEntries [e] stdin = processMulti [e] stdin [] := rfl

theorem processMulti_cons (e : String) (rest : List String) (stdin : String)
    (acc : Fields) :
    processMulti (e :: rest) stdin acc
      = match processEntry e stdin with
        | .error err => .error err
        | .ok kv => processMulti rest stdin (setKey acc kv.1 kv.2) := rfl

theorem entry_data (key value : String) :
    (key ++ "=" ++ value).data = key.data ++ '=' :: value.data := by
  rw [String.data_append, String.data_append, List.append_assoc]
  rfl

/-- What `processEntry` does to a well-formed `key=value` entry whose key
contains no `=` and is non-empty. -/
theorem processEntry_eq (key value stdin : String) (hk : hasEqChar key = false)
    (hke : key ≠ "") :
    processEntry (key ++ "=" ++ value) stdin
      = if isSecretKey key then
          if value ≠ "-" then .error (.secretViaArgv key)
          else
            if readStdinText stdin = "" then .error .noStdin
            else .ok (key, Value.str (readStdinText stdin))
        else if value = "-" then
          if readStdinText stdin = "" then .error .noStdin
          else .ok (key, Value.str (readStdinText stdin))
        else .ok (key, parseCliValue value) := by
  obtain ⟨c, cs, hkd⟩ := key_data_cons hke
  have hsplit : splitEq ((key ++ "=" ++ value).data) = some (c :: cs, value.data) := by
    rw [entry_data, hkd]
    exact splitEq_append (hkd ▸ not_mem_eq_of_hasEqChar_false hk) value.data
  have hmkk : String.mk (c :: cs) = key := by
    rw [← hkd]
  have hmkv : String.mk value.data = value := rfl
  simp only [processEntry, hsplit, hmkk, hmkv]

/-- Claim C2: for every secret key (last dotted segment `key`, `token`,
`secret` or `password`, case-insensitively), `config set` with a literal
value — in either the legacy `set key value` form or the `set key=value`
form — fails with the secret-via-argv rejection and writes nothing, while
the same set through the `-` stdin sentinel with a piped value stores the
value trimmed of trailing whitespace only, and a subsequent read of the key
returns that trimmed value. -/
theorem secret_set_policy (key value stdin : String) (doc : Fields)
    (hsec : isSecretKey key = true)
    (hk : hasEqChar key = false) (hv : hasEqChar value = false) :
    (value ≠ "-" →
        runSet [key, value] stdin doc = (doc, .error (.secretViaArgv key)))
    ∧ (readStdinText stdin ≠ "" →
        runSet [key, "-"] stdin doc
          = (setConfigValuesPure doc [(key, Value.str (readStdinText stdin))], .ok [key])
        ∧ getValuePath (.obj (runSet [key, "-"] stdin doc).1) (splitDot key)
            = some (Value.str (readStdinText stdin)))
    ∧ (value ≠ "-" →
        runSet [key ++ "=" ++ value] stdin doc = (doc, .error (.secretViaArgv key)))
    ∧ (readStdinText stdin ≠ "" →
        runSet [key ++ "=" ++ "-"] stdin doc
          = (setConfigValuesPure doc [(key, Value.str (readStdinText stdin))], .ok [key])
        ∧ getValuePath (.obj (runSet [key ++ "=" ++ "-"] stdin doc).1) (splitDot key)
            = some (Value.str (readStdinText stdin))) := by
  have hvdash : hasEqChar "-" = false := by decide
  refine ⟨?_, ?_, ?_, ?_⟩
  · intro hne
    rw [runSet, runSetEntries_pair, hk, hv]
    simp only [Bool.not_false, Bool.and_self, if_true]
    rw [processLegacy, if_neg hne, if_pos hsec]
  · intro hst
    have hok : runSetEntries [key, "-"] stdin
        = .ok [(key, Value.str (readStdinText stdin))] := by
      rw [runSetEntries_pair, hk, hvdash]
      simp only [Bool.not_false, Bool.and_self, if_true]
      rw [processLegacy, if_pos rfl, if_neg hst]
    constructor
    · rw [runSet, hok]
      rfl
    · rw [runSet, hok]
      exact getValuePath_setNestedParts_self _ (splitDot_ne_nil key) doc _
  · intro hne
    rw [runSet, runSetEntries_single, processMulti_cons,
      processEntry_eq key value stdin hk (isSecretKey_ne_empty hsec), if_pos hsec,
      if_pos hne]
  · intro hst
    have hok : runSetEntries [key ++ "=" ++ "-"] stdin
        = .ok [(key, Value.str (readStdinText stdin))] := by
      rw [runSetEntries_single, processMulti_cons,
        processEntry_eq key "-" stdin hk (isSecretKey_ne_empty hsec), if_pos hsec]
      rw [if_neg (by simp), if_neg hst]
      rfl
    constructor
    · rw [runSet, hok]
      rfl
    · rw [runSet, hok]
      exact getValuePath_setNestedParts_self _ (splitDot_ne_nil key) doc _

theorem secret_set_policy_witness :
    runSet ["api.key", "literal-secret"] "whatever" [] 
        = ([], .error (.secretViaArgv "api.key"))
    ∧ runSet ["api.key", "-"] "abc123\n" []
        = (setConfigValuesPure [] [("api.key", Value.str "abc123")], .ok ["api.key"])
    ∧ getValuePath (.obj (runSet ["api.key", "-"] "abc123\n" []).1) (splitDot "api.key")
        = some (Value.str "abc123")
    ∧ runSet ["api.key" ++ "=" ++ "literal-secret"] "whatever" []
        = ([], .error (.secretViaArgv "api.key")) := by
  have h := secret_set_policy "api.key" "literal-secret" "whatever" [] (by decide)
    (by decide) (by decide)
  have h2 := secret_set_policy "api.key" "literal-secret" "abc123\n" [] (by decide)
    (by decide) (by decide)
  have hst : readStdinText "abc123\n" = "abc123" := by decide
  refine ⟨h.1 (by decide), ?_, ?_, h.2.2.1 (by decide)⟩
  · rw [hst] at h2
    exact (h2.2.1 (by decide)).1
  · rw [hst] at h2
    exact (h2.2.1 (by decide)).2

/-- Claim C10: a `config set` through the `-` stdin sentinel whose piped
input is empty or whitespace-only (so the trimmed value is empty) fails
with the no-stdin error and writes nothing, in both the legacy and the
`key=value` form; an empty string can never be stored via the sentinel
path. -/
theorem empty_stdin_rejected (key stdin : String) (doc : Fields)
    (hk : hasEqChar key = false) (hke : key ≠ "")
    (hempty : readStdinText stdin = "") :
    runSet [key, "-"] stdin doc = (doc, .error .noStdin)
    ∧ runSet [key ++ "=" ++ "-"] stdin doc = (doc, .error .noStdin) := by
  constructor
  · rw [runSet, runSetEntries_pair, hk, show hasEqChar "-" = false from rfl]
    simp only [Bool.not_false, Bool.and_self, if_true]
    rw [processLegacy, if_pos rfl, if_pos hempty]
  · rw [runSet, runSetEntries_single, processMulti_cons,
      processEntry_eq key "-" stdin hk hke]
    by_cases hsec : isSecretKey key
    · rw [if_pos hsec, if_neg (by simp), if_pos hempty]
    · rw [if_neg hsec, if_pos rfl, if_pos hempty]

theorem empty_stdin_rejected_witness :
    runSet ["api.key", "-"] "   \n" [("x", Value.str "1")]
        = ([("x", Value.str "1")], .error .noStdin)
    ∧ runSet ["api.key" ++ "=" ++ "-"] "   \n" [("x", Value.str "1")]
        = ([("x", Value.str "1")], .error .noStdin) :=
  empty_stdin_rejected "api.key" "   \n" [("x", Value.str "1")] (by decide)
    (by decide) (by decide)

/-- Claim C1 evaluation, documenting the code bug: on a session whose
history is empty but whose original `input_image` is set,
`getLastImageData` returns absent — the guard
`if (!session || session.history.length === 0) return null` fires before
the `lastEntry.image_data || session.input_image || null` fallback that the
function's own comment ("or the input image if no entries") and the spec
describe, so the `input_image` fallback is unreachable on an empty
history. -/
theorem lastImageData_empty_history_eval :
    Store.get
        [("s1",
          { id := "s1"
            created_at := 0
            updated_at := 0
            model := "m"
            input_image := some "orig.png"
            history := [] })] "s1"
      = some
          { id := "s1"
            created_at := 0
            updated_at := 0
            model := "m"
            input_image := some "orig.png"
            history := [] }
    ∧ getLastImageData
        [("s1",
          { id := "s1"
            created_at := 0
            updated_at := 0
            model := "m"
            input_image := some "orig.png"
            history := [] })] "s1"
      = none := by
  constructor <;> rfl

/-- Claim C9: starting from an empty store, creating one session and
appending three entries yields a listing with exactly one summary whose
`history_count` is 3 and whose `last_prompt` is the third (most recent)
entry's prompt. -/
theorem create_append_three (id mdl : String) (im : Option String) (maxH : Nat)
    (hmax : 0 < maxH) (t0 t1 t2 t3 : Nat) (p1 p2 p3 o1 o2 o3 : String)
    (d1 d2 d3 : Option String) :
    listSessions
      ((addEntry ((addEntry ((addEntry
          ((createSession [] id t0 mdl im maxH).1)
          id p1 o1 t1 d1).1) id p2 o2 t2 d2).1) id p3 o3 t3 d3).1)
      = [{ id := id
           created_at := t0
           updated_at := t3
           model := mdl
           history_count := 3
           last_prompt := some p3 }] := by
  have hlt : ¬ (1 > maxH) := by omega
  simp [createSession, pruneStore, addEntry, Store.save, Store.get, Store.del,
    setKey, lookupKey, listSessions, summarize, List.insertionSort,
    List.orderedInsert, hlt]

theorem create_append_three_witness :
    listSessions
      ((addEntry ((addEntry ((addEntry
          ((createSession [] "s1" 100 "m" (some "in.png") 50).1)
          "s1" "p1" "o1" 101 (some "d1")).1)
          "s1" "p2" "o2" 102 none).1)
          "s1" "p3" "o3" 103 (some "d3")).1)
      = [{ id := "s1"
           created_at := 100
           updated_at := 103
           model := "m"
           history_count := 3
           last_prompt := some "p3" }] :=
  create_append_three "s1" "m" (some "in.png") 50 (by decide) 100 101 102 103
    "p1" "p2" "p3" "o1" "o2" "o3" (some "d1") none (some "d3")

/-- The keys removed by one pruning pass, applied in order. -/
def removeKeys (st : Store) (ids : List String) : Store := ids.foldl removeKey st

theorem removeKeys_cons (st : Store) (i : String) (ids : List String) :
    removeKeys st (i :: ids) = removeKeys (removeKey st i) ids := rfl

theorem lookupKey_removeKeys (ids : List String) :
    ∀ (st : Store) (x : String),
    lookupKey (removeKeys st ids) x = if x ∈ ids then none else lookupKey st x := by
  induction ids with
  | nil => intro st x; simp [removeKeys]
  | cons i rest ih =>
      intro st x
      rw [removeKeys_cons, ih]
      by_cases hx : x = i
      · subst hx
        by_cases hxr : x ∈ rest <;>
          simp [hxr, lookupKey_removeKey_self, List.mem_cons]
      · by_cases hxr : x ∈ rest <;>
          simp [List.mem_cons, hx, hxr, lookupKey_removeKey_ne st hx]

theorem lookup_isSome_of_mem_keys {l : Store} {x : String}
    (h : x ∈ l.map Prod.fst) : (lookupKey l x).isSome = true := by
  induction l with
  | nil => simp at h
  | cons p rest ih =>
      obtain ⟨k', v⟩ := p
      by_cases hk : k' = x
      · simp [lookupKey, hk]
      · rw [List.map_cons, List.mem_cons] at h
        rcases h with h | h
        · exact absurd h.symm hk
        · simp [lookupKey, hk, ih h]

theorem lookup_eq_of_mem_nodup {st : Store} (hkeys : (st.map Prod.fst).Nodup)
    {i : String} {s : Session} (h : (i, s) ∈ st) : lookupKey st i = some s := by
  induction st with
  | nil => simp at h
  | cons p rest ih =>
      obtain ⟨k', v⟩ := p
      rw [List.map_cons, List.nodup_cons] at hkeys
      rcases List.mem_cons.mp h with heq | hmem
      · rw [Prod.mk.injEq] at heq
        obtain ⟨rfl, rfl⟩ := heq
        simp [lookupKey]
      · have hk : k' ≠ i := by
          intro hki
          subst hki
          exact hkeys.1 (List.mem_map.mpr ⟨(k', s), hmem, rfl⟩)
        simp [lookupKey, hk, ih hkeys.2 hmem]

/-- The deletion loop of `prune` over summaries with distinct, all-present
ids: it removes exactly those keys and counts every deletion. -/
theorem delFold (ds : List SessionSummary) :
    ∀ (st : Store) (c : Nat),
    (∀ d ∈ ds, (lookupKey st d.id).isSome = true) →
    (ds.map SessionSummary.id).Nodup →
    ds.foldl (fun acc summ =>
        let r := Store.del acc.1 summ.id
        (r.1, if r.2 then acc.2 + 1 else acc.2)) (st, c)
      = (removeKeys st (ds.map SessionSummary.id), c + ds.length) := by
  induction ds with
  | nil => intro st c _ _; simp [removeKeys]
  | cons d rest ih =>
      intro st c hpres hnd
      rw [List.map_cons, List.nodup_cons] at hnd
      have hd := hpres d (List.mem_cons_self _ _)
      rw [List.foldl_cons]
      have hstep : (let r := Store.del (st, c).1 d.id
          (r.1, if r.2 then (st, c).2 + 1 else (st, c).2))
          = (removeKey st d.id, c + 1) := by
        show (let r := Store.del st d.id
              (r.1, if r.2 then c + 1 else c)) = _
        rw [Store.del, if_pos hd]
        rfl
      have hpres2 : ∀ e ∈ rest, (lookupKey (removeKey st d.id) e.id).isSome = true := by
        intro e he
        have hne : e.id ≠ d.id := by
          intro hie
          exact hnd.1 (hie ▸ List.mem_map.mpr ⟨e, he, rfl⟩)
        rw [lookupKey_removeKey_ne st hne]
        exact hpres e (List.mem_cons_of_mem _ he)
      rw [hstep, ih (removeKey st d.id) (c + 1) hpres2 hnd.2, List.map_cons,
        removeKeys_cons, List.length_cons]
      simp only [Prod.mk.injEq]
      constructor
      · trivial
      · omega

/-- Sessions strictly more recently updated than timestamp `u`. -/
def rank (st : Store) (u : Nat) : Nat :=
  st.countP fun p => u < p.2.updated_at

theorem rank_ge_of_mem_drop {l : List SessionSummary} (hp : l.Pairwise moreRecent)
    (hn : (l.map SessionSummary.updated_at).Nodup) {k : Nat} {x : SessionSummary}
    (hx : x ∈ l.drop k) :
    k ≤ l.countP fun y => x.updated_at < y.updated_at := by
  have hsplit := List.take_append_drop k l
  have hp2 : List.Pairwise moreRecent (l.take k ++ l.drop k) := by
    rw [hsplit]
    exact hp
  rw [List.pairwise_append] at hp2
  have hn2 : ((l.take k ++ l.drop k).map SessionSummary.updated_at).Nodup := by
    rw [hsplit]
    exact hn
  rw [List.map_append, List.nodup_append] at hn2
  have hall : ∀ a ∈ l.take k,
      (fun y => decide (x.updated_at < y.updated_at)) a = true := by
    intro a ha
    have hle : x.updated_at ≤ a.updated_at := hp2.2.2 a ha x hx
    have hne : a.updated_at ≠ x.updated_at := by
      intro he
      exact hn2.2.2 (List.mem_map_of_mem _ ha) (he ▸ List.mem_map_of_mem _ hx)
    have hlt : x.updated_at < a.updated_at :=
      lt_of_le_of_ne hle fun h => hne h.symm
    simpa using hlt
  have hklen : k < l.length := by
    by_contra hkl
    push_neg at hkl
    rw [List.drop_eq_nil_of_le hkl] at hx
    simp at hx
  have htl : (l.take k).length = k := by
    rw [List.length_take]
    omega
  have hcnt : (l.take k).countP (fun y => decide (x.updated_at < y.updated_at)) = k := by
    rw [List.countP_eq_length.mpr hall, htl]
  have : l.countP (fun y => decide (x.updated_at < y.updated_at))
      = (l.take k).countP (fun y => decide (x.updated_at < y.updated_at))
        + (l.drop k).countP (fun y => decide (x.updated_at < y.updated_at)) := by
    conv_lhs => rw [← hsplit]
    rw [List.countP_append]
  omega

theorem rank_lt_of_mem_take {l : List SessionSummary} (hp : l.Pairwise moreRecent)
    {k : Nat} {x : SessionSummary} (hx : x ∈ l.take k) :
    l.countP (fun y => x.updated_at < y.updated_at) < k := by
  have hsplit := List.take_append_drop k l
  have hp2 : List.Pairwise moreRecent (l.take k ++ l.drop k) := by
    rw [hsplit]
    exact hp
  rw [List.pairwise_append] at hp2
  have hdrop0 : (l.drop k).countP (fun y => decide (x.updated_at < y.updated_at)) = 0 := by
    rw [List.countP_eq_zero]
    intro b hb
    have hle : b.updated_at ≤ x.updated_at := hp2.2.2 x hx b hb
    simp
    omega
  have hle := List.countP_le_length (fun y => decide (x.updated_at < y.updated_at))
    (l := l.take k)
  have hne : (l.take k).countP (fun y => decide (x.updated_at < y.updated_at))
      ≠ (l.take k).length := by
    intro he
    have := List.countP_eq_length.mp he x hx
    simp at this
  have htk : (l.take k).length ≤ k := by
    rw [List.length_take]
    omega
  have : l.countP (fun y => decide (x.updated_at < y.updated_at))
      = (l.take k).countP (fun y => decide (x.updated_at < y.updated_at))
        + (l.drop k).countP (fun y => decide (x.updated_at < y.updated_at)) := by
    conv_lhs => rw [← hsplit]
    rw [List.countP_append]
  omega

/-- Claim C6: on a store of sessions with distinct ids and pairwise
distinct `updated_at` values, `prune(k)` deletes nothing when at most `k`
sessions exist; when `n > k` sessions exist it deletes exactly the
`n - k` least recently updated ones: afterwards `get` still returns each
session that fewer than `k` sessions beat in recency (`rank < k`, the `k`
most recently updated) and returns absent for every other session, and the
pruned count is `n - k`. -/
theorem prune_spec (st : Store) (k : Nat)
    (hid : ∀ p ∈ st, p.2.id = p.1)
    (hkeys : (st.map Prod.fst).Nodup)
    (hdist : (st.map fun p => p.2.updated_at).Nodup) :
    (st.length ≤ k → pruneStore st k = (st, 0))
    ∧ (k < st.length →
        (pruneStore st k).2 = st.length - k
        ∧ ∀ p ∈ st, Store.get (pruneStore st k).1 p.1
            = if rank st p.2.updated_at < k then some p.2 else none) := by
  have hlen : (listSessions st).length = st.length := by
    rw [listSessions, (List.perm_insertionSort moreRecent _).length_eq, List.length_map]
  constructor
  · intro h
    have hcond : ¬ ((listSessions st).length > k) := by
      rw [hlen]
      omega
    simp only [pruneStore]
    rw [if_neg hcond]
  · intro hk
    have hcond : (listSessions st).length > k := by
      rw [hlen]
      omega
    have hperm : List.Perm (listSessions st) (st.map fun p => summarize p.2) :=
      List.perm_insertionSort moreRecent _
    have hids_eq : (st.map fun p => summarize p.2).map SessionSummary.id
        = st.map Prod.fst := by
      rw [List.map_map]
      exact List.map_congr_left fun p hp => hid p hp
    have hsorted_ids : ((listSessions st).map SessionSummary.id).Nodup := by
      have hmapperm := hperm.map SessionSummary.id
      rw [hids_eq] at hmapperm
      exact hmapperm.nodup_iff.mpr hkeys
    have hsorted_upd : ((listSessions st).map SessionSummary.updated_at).Nodup := by
      have hmapperm := hperm.map SessionSummary.updated_at
      have hcomp : (st.map fun p => summarize p.2).map SessionSummary.updated_at
          = st.map fun p => p.2.updated_at := by
        rw [List.map_map]
        rfl
      rw [hcomp] at hmapperm
      exact hmapperm.nodup_iff.mpr hdist
    have hsorted_pair : (listSessions st).Pairwise moreRecent :=
      List.sorted_insertionSort moreRecent _
    have hpresent : ∀ d ∈ (listSessions st).drop k,
        (lookupKey st d.id).isSome = true := by
      intro d hd
      apply lookup_isSome_of_mem_keys
      have hd2 : d ∈ listSessions st := List.mem_of_mem_drop hd
      have hd3 : d ∈ st.map fun p => summarize p.2 := hperm.mem_iff.mp hd2
      obtain ⟨p, hp, rfl⟩ := List.mem_map.mp hd3
      exact List.mem_map.mpr ⟨p, hp, (hid p hp).symm⟩
    have hd_nodup : (((listSessions st).drop k).map SessionSummary.id).Nodup := by
      rw [List.map_drop]
      exact (List.drop_sublist _ _).nodup hsorted_ids
    have hprune : pruneStore st k
        = (removeKeys st (((listSessions st).drop k).map SessionSummary.id),
           0 + ((listSessions st).drop k).length) := by
      simp only [pruneStore]
      rw [if_pos hcond]
      exact delFold _ st 0 hpresent hd_nodup
    constructor
    · rw [hprune]
      show 0 + ((listSessions st).drop k).length = st.length - k
      rw [List.length_drop, hlen]
      omega
    · intro p hp
      obtain ⟨i, s⟩ := p
      have hsid : s.id = i := hid (i, s) hp
      have hxmem : summarize s ∈ listSessions st :=
        hperm.mem_iff.mpr (List.mem_map.mpr ⟨(i, s), hp, rfl⟩)
      have hcnt : (listSessions st).countP
            (fun y => decide (s.updated_at < y.updated_at))
          = rank st s.updated_at := by
        rw [hperm.countP_eq, List.countP_map]
        rfl
      have hDmem : (i ∈ ((listSessions st).drop k).map SessionSummary.id)
          ↔ summarize s ∈ (listSessions st).drop k := by
        constructor
        · intro hiD
          obtain ⟨y, hy, hyid⟩ := List.mem_map.mp hiD
          have hy2 : y ∈ listSessions st := List.mem_of_mem_drop hy
          have heq : y = summarize s := by
            apply List.inj_on_of_nodup_map hsorted_ids hy2 hxmem
            rw [hyid]
            exact hsid.symm
          rw [← heq]
          exact hy
        · intro hx
          exact List.mem_map.mpr ⟨summarize s, hx, hsid⟩
      have hget : Store.get (pruneStore st k).1 i
          = lookupKey (removeKeys st (((listSessions st).drop k).map SessionSummary.id))
              i := by
        rw [hprune]
        rfl
      rw [hget, lookupKey_removeKeys]
      by_cases hr : rank st s.updated_at < k
      · have hnotin : ¬ i ∈ ((listSessions st).drop k).map SessionSummary.id := by
          intro hiD
          have h7 := rank_ge_of_mem_drop hsorted_pair hsorted_upd (hDmem.mp hiD)
          rw [show (summarize s).updated_at = s.updated_at from rfl] at h7
          rw [hcnt] at h7
          omega
        rw [if_pos hr, if_neg hnotin]
        exact lookup_eq_of_mem_nodup hkeys hp
      · have hxdrop : summarize s ∈ (listSessions st).drop k := by
          have hmem2 : summarize s
              ∈ (listSessions st).take k ++ (listSessions st).drop k := by
            rw [List.take_append_drop]
            exact hxmem
          rcases List.mem_append.mp hmem2 with htake | hdrop
          · exfalso
            have h7 := rank_lt_of_mem_take hsorted_pair htake
            rw [show (summarize s).updated_at = s.updated_at from rfl] at h7
            rw [hcnt] at h7
            omega
          · exact hdrop
        rw [if_neg hr, if_pos (hDmem.mpr hxdrop)]

/-- A three-session store with distinct ids and distinct update times,
used to exercise `prune_spec`. -/
def pruneDemoStore : Store :=
  [("a",
    { id := "a"
      created_at := 0
      updated_at := 10
      model := "m"
      input_image := none
      history := [] }),
   ("b",
    { id := "b"
      created_at := 1
      updated_at := 30
      model := "m"
      input_image := none
      history := [] }),
   ("c",
    { id := "c"
      created_at := 2
      updated_at := 20
      model := "m"
      input_image := none
      history := [] })]

theorem prune_spec_witness :
    (pruneStore pruneDemoStore 1).2 = 2
    ∧ Store.get (pruneStore pruneDemoStore 1).1 "b"
        = some { id := "b"
                 created_at := 1
                 updated_at := 30
                 model := "m"
                 input_image := none
                 history := [] }
    ∧ Store.get (pruneStore pruneDemoStore 1).1 "a" = none
    ∧ Store.get (pruneStore pruneDemoStore 1).1 "c" = none
    ∧ pruneStore pruneDemoStore 5 = (pruneDemoStore, 0) := by
  have h := prune_spec pruneDemoStore 1 (by decide) (by decide) (by decide)
  have h5 := prune_spec pruneDemoStore 5 (by decide) (by decide) (by decide)
  have h2 := h.2 (by decide)
  refine ⟨h2.1, ?_, ?_, ?_, h5.1 (by decide)⟩
  · have hb := h2.2 ("b",
      { id := "b"
        created_at := 1
        updated_at := 30
        model := "m"
        input_image := none
        history := [] }) (by decide)
    rw [if_pos (by decide)] at hb
    exact hb
  · have ha := h2.2 ("a",
      { id := "a"
        created_at := 0
        updated_at := 10
        model := "m"
        input_image := none
        history := [] }) (by decide)
    rw [if_neg (by decide)] at ha
    exact ha
  · have hc := h2.2 ("c",
      { id := "c"
        created_at := 2
        updated_at := 20
        model := "m"
        input_image := none
        history := [] }) (by decide)
    rw [if_neg (by decide)] at hc
    exact hc

end Bnn
